import Mathlib

/-!
# Kedge: synthesis of Kubernetes objects from an application description

A shallow embedding of `pkg/transform/kubernetes/kubernetes.go`.

* Go structs become Lean structures that keep the fields the code reads or
  writes (and a few neighbouring ones that are only carried along).
* A Go `map[string]string` is a `StrMap`: `none` is the nil map, `some l`
  lists the entries in the order a `range` loop visits them.
* A Go pointer that may be nil is an `Option`.
* The code mutates the `*spec.App` it is given, so every function that writes
  through the pointer returns the new value of the model next to its result.
* `resource.ParseQuantity` and `api.Scheme.ObjectKind` belong to the Kubernetes
  libraries; they are parameters (`parse`, `scheme`) of the embedding.
* Logging (`log.Warnf`, `log.Debugf`) has no effect on the values computed and
  is left out.
-/

set_option linter.dupNamespace false

namespace Kedge

/-- Go `map[string]string`: `none` is nil, `some l` the entries in range order. -/
abbrev StrMap := Option (List (String × String))

/-- Go `len(m)` of a map. -/
def lenMap : StrMap → Nat
  | none => 0
  | some l => l.length

/-- Keys of a map in the order `for k := range m` visits them. -/
def rangeKeys : StrMap → List String
  | none => []
  | some l => l.map Prod.fst

/-- Go `errors.Wrap(err, msg)` as far as the message goes: `msg: cause`. -/
def wrap (cause msg : String) : String := msg ++ ": " ++ cause

/-! ## `k8s.io/client-go/pkg/api/v1` -/

namespace api_v1

structure TypeMeta where
  Kind : String := ""
  APIVersion : String := ""
  deriving DecidableEq, Repr

structure ObjectMeta where
  Name : String := ""
  Labels : StrMap := none
  deriving DecidableEq, Repr

structure ConfigMapKeySelector where
  /-- Field `LocalObjectReference.Name`. -/
  Name : String
  Key : String
  deriving DecidableEq, Repr

structure SecretKeySelector where
  Name : String
  Key : String
  deriving DecidableEq, Repr

structure EnvVarSource where
  ConfigMapKeyRef : Option ConfigMapKeySelector := none
  SecretKeyRef : Option SecretKeySelector := none
  deriving DecidableEq, Repr

structure EnvVar where
  Name : String
  Value : String := ""
  ValueFrom : Option EnvVarSource := none
  deriving DecidableEq, Repr

structure VolumeMount where
  Name : String
  ReadOnly : Bool := false
  MountPath : String := ""
  deriving DecidableEq, Repr

structure Container where
  Name : String := ""
  Image : String := ""
  Env : List EnvVar := []
  VolumeMounts : List VolumeMount := []
  deriving DecidableEq, Repr

structure PersistentVolumeClaimVolumeSource where
  ClaimName : String
  ReadOnly : Bool := false
  deriving DecidableEq, Repr

structure ConfigMapVolumeSource where
  /-- Field `LocalObjectReference.Name`. -/
  Name : String
  deriving DecidableEq, Repr

structure VolumeSource where
  PersistentVolumeClaim : Option PersistentVolumeClaimVolumeSource := none
  ConfigMap : Option ConfigMapVolumeSource := none
  deriving DecidableEq, Repr

structure Volume where
  Name : String
  VolumeSource : VolumeSource := {}
  deriving DecidableEq, Repr

structure PodSpec where
  Volumes : List Volume := []
  Containers : List Container := []
  RestartPolicy : String := ""
  deriving DecidableEq, Repr

structure PodTemplateSpec where
  ObjectMeta : ObjectMeta := {}
  Spec : PodSpec := {}
  deriving DecidableEq, Repr

structure ServicePort where
  Name : String := ""
  Protocol : String := ""
  Port : Int
  NodePort : Int := 0
  deriving DecidableEq, Repr

structure ServiceSpec where
  /-- Go field `Type` (a keyword here), of the string type `ServiceType`. -/
  Type_ : String := ""
  Ports : List ServicePort := []
  Selector : StrMap := none
  ClusterIP : String := ""
  deriving DecidableEq, Repr

structure Service where
  TypeMeta : TypeMeta := {}
  ObjectMeta : ObjectMeta := {}
  Spec : ServiceSpec := {}
  deriving DecidableEq, Repr

structure ConfigMap where
  TypeMeta : TypeMeta := {}
  ObjectMeta : ObjectMeta := {}
  Data : StrMap := none
  deriving DecidableEq, Repr

/-- Go `ResourceRequirements`; a `ResourceList` maps resource names to quantities. -/
structure ResourceRequirements (Q : Type) where
  Limits : List (String × Q) := []
  Requests : List (String × Q) := []
  deriving DecidableEq, Repr

structure PersistentVolumeClaimSpec (Q : Type) where
  AccessModes : List String := []
  Resources : ResourceRequirements Q := {}
  deriving DecidableEq, Repr

structure PersistentVolumeClaim (Q : Type) where
  TypeMeta : TypeMeta := {}
  ObjectMeta : ObjectMeta := {}
  Spec : PersistentVolumeClaimSpec Q := {}
  deriving DecidableEq, Repr

/-- Constant `ServiceTypeLoadBalancer`. -/
def ServiceTypeLoadBalancer : String := "LoadBalancer"
/-- Constant `ResourceStorage`. -/
def ResourceStorage : String := "storage"
/-- Constant `ReadWriteOnce` of type `PersistentVolumeAccessMode`. -/
def ReadWriteOnce : String := "ReadWriteOnce"
/-- Constant `ReadOnlyMany` of type `PersistentVolumeAccessMode`. -/
def ReadOnlyMany : String := "ReadOnlyMany"
/-- Constant `ReadWriteMany` of type `PersistentVolumeAccessMode`. -/
def ReadWriteMany : String := "ReadWriteMany"

end api_v1

/-! ## `k8s.io/client-go/pkg/apis/extensions/v1beta1` and `util/intstr` -/

namespace intstr

/-- Go `intstr.IntOrString`. -/
inductive IntOrString where
  | int (v : Int)
  | str (s : String)
  deriving DecidableEq, Repr

/-- Go `intstr.FromInt`. -/
def FromInt (v : Int) : IntOrString := IntOrString.int v

end intstr

namespace ext_v1beta1

structure IngressBackend where
  ServiceName : String
  ServicePort : intstr.IntOrString
  deriving DecidableEq, Repr

structure HTTPIngressPath where
  Path : String := ""
  Backend : IngressBackend
  deriving DecidableEq, Repr

structure HTTPIngressRuleValue where
  Paths : List HTTPIngressPath
  deriving DecidableEq, Repr

structure IngressRuleValue where
  HTTP : Option HTTPIngressRuleValue := none
  deriving DecidableEq, Repr

structure IngressRule where
  Host : String := ""
  IngressRuleValue : IngressRuleValue := {}
  deriving DecidableEq, Repr

structure IngressSpec where
  Backend : Option IngressBackend := none
  Rules : List IngressRule := []
  deriving DecidableEq, Repr

structure Ingress where
  TypeMeta : api_v1.TypeMeta := {}
  ObjectMeta : api_v1.ObjectMeta := {}
  Spec : IngressSpec := {}
  deriving DecidableEq, Repr

structure DeploymentSpec where
  Replicas : Option Int := none
  Template : api_v1.PodTemplateSpec := {}
  deriving DecidableEq, Repr

structure Deployment where
  TypeMeta : api_v1.TypeMeta := {}
  ObjectMeta : api_v1.ObjectMeta := {}
  Spec : DeploymentSpec := {}
  deriving DecidableEq, Repr

end ext_v1beta1

/-! ## `pkg/spec`: the application model -/

namespace spec

/-- Modelled from the spec: the declaration of `spec.Volume` (the
PersistentVolume-Intent: name, size, access modes) is not part of the sources.
The composite literal in `CreateK8sObjects` fixes the fields and their order:
an embedded pod volume, which carries the name, then size and access modes. -/
structure Volume where
  Volume : api_v1.Volume
  Size : String := ""
  AccessModes : List String := []
  deriving DecidableEq, Repr

/-- Modelled from the spec: the declaration of `spec.ServiceSpec` (the
Service-Intent) is not part of the sources. It has a name, the underlying
service specification (ports, selector, type), routing rules and an ingress
override; these are the fields `createServices` reads. -/
structure ServiceSpec where
  Name : String := ""
  ServiceSpec : api_v1.ServiceSpec := {}
  Rules : List ext_v1beta1.IngressRule := []
  IngressSpec : ext_v1beta1.IngressSpec := {}
  deriving DecidableEq, Repr

/-- Modelled from the spec: the declaration of `spec.App` (the Application
Model) is not part of the sources. The fields are the ones the code uses;
`app.Containers` and `app.Volumes` of the Go code are fields of `PodSpec`. -/
structure App where
  Name : String := ""
  Replicas : Option Int := none
  Labels : StrMap := none
  PersistentVolumes : List Volume := []
  ConfigData : StrMap := none
  Services : List ServiceSpec := []
  PodSpec : api_v1.PodSpec := {}
  deriving DecidableEq, Repr

end spec

/-! ## `runtime.Object` and the type scheme -/

/-- The values of `runtime.Object` this package builds, by concrete type. -/
inductive Object (Q : Type) where
  | Deployment (d : ext_v1beta1.Deployment)
  | ConfigMap (c : api_v1.ConfigMap)
  | Service (s : api_v1.Service)
  | Ingress (i : ext_v1beta1.Ingress)
  | PersistentVolumeClaim (p : api_v1.PersistentVolumeClaim Q)
  deriving DecidableEq, Repr

/-- Concrete Go type of an object, the key of the scheme lookup. -/
inductive GoType where
  | Deployment | ConfigMap | Service | Ingress | PersistentVolumeClaim
  deriving DecidableEq, Repr

structure GroupVersionKind where
  Group : String := ""
  Version : String := ""
  Kind : String := ""
  deriving DecidableEq, Repr

/-- Result of `Scheme.ObjectKind` for each concrete type: an error, or the
group/version/kind with the `isUnversioned` flag. -/
abbrev Scheme := GoType → Except String (GroupVersionKind × Bool)

/-! ## `pkg/transform/kubernetes` -/

namespace kubernetes

open api_v1

variable {Q : Type}

def DefaultVolumeSize : String := "100Mi"

def DefaultVolumeType : String := "ReadWriteOnce"

def getLabels (app : spec.App) : StrMap :=
  some [("app", app.Name)]

/-- Body of the loop of `createServices`, for one Service-Intent `s`. -/
def createServicesBody (app : spec.App) (svcs : List (Object Q)) (s : spec.ServiceSpec) :
    List (Object Q) :=
  let svc : Service :=
    { ObjectMeta := { Name := s.Name, Labels := app.Labels }, Spec := s.ServiceSpec }
  let svc : Service :=
    if lenMap svc.Spec.Selector = 0 then
      { svc with Spec := { svc.Spec with Selector := app.Labels } }
    else svc
  let svcs := svcs ++ [Object.Service svc]
  if s.ServiceSpec.Type_ = ServiceTypeLoadBalancer then
    if s.Rules.length = 1 ∧ s.ServiceSpec.Ports.length = 1 then
      -- `s.Rules[0]` and `s.Ports[0]` exist here; the last case is never taken
      match s.Rules[0]?, s.ServiceSpec.Ports[0]? with
      | some rule0, some port0 =>
        let http : ext_v1beta1.HTTPIngressRuleValue :=
          match rule0.IngressRuleValue.HTTP with
          | some http => http
          | none =>
            { Paths := [{ Path := "/",
                          Backend := { ServiceName := s.Name,
                                       ServicePort := intstr.FromInt port0.Port } }] }
        let ing : ext_v1beta1.Ingress :=
          { ObjectMeta := { Name := s.Name, Labels := app.Labels },
            Spec := { Rules := [{ IngressRuleValue := { HTTP := some http },
                                  Host := rule0.Host }] } }
        svcs ++ [Object.Ingress ing]
      | _, _ => svcs
    else if s.Rules.length = 1 ∧ s.ServiceSpec.Ports.length > 1 then
      -- only a warning is logged here
      svcs
    else if s.Rules.length > 1 then
      let ing : ext_v1beta1.Ingress :=
        { ObjectMeta := { Name := s.Name, Labels := app.Labels }, Spec := s.IngressSpec }
      svcs ++ [Object.Ingress ing]
    else svcs
  else svcs

def createServices (app : spec.App) : List (Object Q) :=
  app.Services.foldl (createServicesBody app) []

def createDeployment (app : spec.App) : ext_v1beta1.Deployment :=
  { ObjectMeta := { Name := app.Name, Labels := app.Labels },
    Spec := { Replicas := app.Replicas,
              Template := { ObjectMeta := { Name := app.Name, Labels := app.Labels },
                            Spec := app.PodSpec } } }

/-- The loop of `searchVolumeIndex` from position `i` on. -/
def searchVolumeIndexFrom (name : String) : List spec.Volume → Nat → Int
  | [], _ => -1
  | v :: vs, i => if name = v.Volume.Name then (i : Int) else searchVolumeIndexFrom name vs (i + 1)

def searchVolumeIndex (app : spec.App) (name : String) : Int :=
  searchVolumeIndexFrom name app.PersistentVolumes 0

def isVolumeDefined (app : spec.App) (name : String) : Bool :=
  if searchVolumeIndex app name ≠ -1 then true else false

/-- One turn of the loop over `v.AccessModes` in `createPVC`. -/
def appendAccessMode (pvc : PersistentVolumeClaim Q) (mode : String) : PersistentVolumeClaim Q :=
  if mode = "ReadWriteOnce" then
    { pvc with Spec := { pvc.Spec with AccessModes := pvc.Spec.AccessModes ++ [ReadWriteOnce] } }
  else if mode = "ReadOnlyMany" then
    { pvc with Spec := { pvc.Spec with AccessModes := pvc.Spec.AccessModes ++ [ReadOnlyMany] } }
  else if mode = "ReadWriteMany" then
    { pvc with Spec := { pvc.Spec with AccessModes := pvc.Spec.AccessModes ++ [ReadWriteMany] } }
  else pvc

/-- Go `createPVC(v *spec.Volume)`: the first component is `*v` on return
(the size is written back when it was empty). -/
def createPVC (parse : String → Except String Q) (v : spec.Volume) :
    spec.Volume × Except String (PersistentVolumeClaim Q) :=
  let v := if v.Size = "" then { v with Size := DefaultVolumeSize } else v
  match parse v.Size with
  | .error err => (v, .error (wrap err "could not read volume size"))
  | .ok size =>
    let pvc : PersistentVolumeClaim Q :=
      { ObjectMeta := { Name := v.Volume.Name },
        Spec := { Resources := { Requests := [(ResourceStorage, size)] } } }
    let pvc := v.AccessModes.foldl appendAccessMode pvc
    let pvc :=
      if v.AccessModes.length = 0 then
        { pvc with Spec := { pvc.Spec with AccessModes := [ReadWriteOnce] } }
      else pvc
    (v, .ok pvc)

def isAnyConfigMapRef (app : spec.App) : Bool :=
  app.PodSpec.Containers.any (fun c =>
    c.Env.any (fun env =>
      match env.ValueFrom with
      | some valueFrom =>
        match valueFrom.ConfigMapKeyRef with
        | some ref => ref.Name = app.Name
        | none => false
      | none => false))
  || app.PodSpec.Volumes.any (fun v =>
      match v.VolumeSource.ConfigMap with
      | some cm => cm.Name = app.Name
      | none => false)

/-- Body of the inner loop of `CreateK8sObjects`, for one volume mount: the
model and the claims collected so far go in, and come out updated, or the
function returns with an error. -/
def volumeMountBody (parse : String → Except String Q) (app : spec.App)
    (pvcs : List (Object Q)) (vm : VolumeMount) : spec.App × Except String (List (Object Q)) :=
  let podVolume : api_v1.Volume :=
    { Name := vm.Name,
      VolumeSource := { PersistentVolumeClaim := some { ClaimName := vm.Name } } }
  let app : spec.App :=
    { app with PodSpec := { app.PodSpec with Volumes := app.PodSpec.Volumes ++ [podVolume] } }
  if isVolumeDefined app vm.Name then
    let i := searchVolumeIndex app vm.Name
    -- `i` is an index of `app.PersistentVolumes` here; the first case is never taken
    match app.PersistentVolumes[i.toNat]? with
    | none => (app, .error "index out of range")
    | some v =>
      match createPVC parse v with
      | (v, .error err) =>
        ({ app with PersistentVolumes := app.PersistentVolumes.set i.toNat v },
          .error (wrap err "cannot create pvc"))
      | (v, .ok pvc) =>
        ({ app with PersistentVolumes := app.PersistentVolumes.set i.toNat v },
          .ok (pvcs ++ [Object.PersistentVolumeClaim pvc]))
  else
    let v : spec.Volume :=
      { Volume := podVolume, Size := DefaultVolumeSize, AccessModes := [DefaultVolumeType] }
    let app : spec.App := { app with PersistentVolumes := app.PersistentVolumes ++ [v] }
    match createPVC parse v with
    | (_, .error err) => (app, .error (wrap err "cannot create pvc"))
    | (_, .ok pvc) => (app, .ok (pvcs ++ [Object.PersistentVolumeClaim pvc]))

/-- Inner loop of `CreateK8sObjects`: `for _, vm := range c.VolumeMounts`. -/
def volumeMountsLoop (parse : String → Except String Q) :
    spec.App → List (Object Q) → List VolumeMount → spec.App × Except String (List (Object Q))
  | app, pvcs, [] => (app, .ok pvcs)
  | app, pvcs, vm :: vms =>
    match volumeMountBody parse app pvcs vm with
    | (app, .error err) => (app, .error err)
    | (app, .ok pvcs) => volumeMountsLoop parse app pvcs vms

/-- Outer loop of `CreateK8sObjects`: `for _, c := range app.Containers`. The
body never writes to the containers, so the loop runs over the list it is given. -/
def containersLoop (parse : String → Except String Q) :
    spec.App → List (Object Q) → List Container → spec.App × Except String (List (Object Q))
  | app, pvcs, [] => (app, .ok pvcs)
  | app, pvcs, c :: cs =>
    match volumeMountsLoop parse app pvcs c.VolumeMounts with
    | (app, .error err) => (app, .error err)
    | (app, .ok pvcs) => containersLoop parse app pvcs cs

/-- Go `app.Containers[0].Name = name`. -/
def setContainer0Name (app : spec.App) (name : String) : spec.App :=
  { app with PodSpec := { app.PodSpec with
      Containers := app.PodSpec.Containers.modifyHead (fun c => { c with Name := name }) } }

/-- Go `app.Containers[0].Env = append(app.Containers[0].Env, e)`. -/
def appendContainer0Env (app : spec.App) (e : EnvVar) : spec.App :=
  { app with PodSpec := { app.PodSpec with
      Containers := app.PodSpec.Containers.modifyHead (fun c => { c with Env := c.Env ++ [e] }) } }

/-- The environment variable `CreateK8sObjects` adds for the key `k`. -/
def configMapEnvVar (app : spec.App) (k : String) : EnvVar :=
  { Name := k,
    ValueFrom := some { ConfigMapKeyRef := some { Name := app.Name, Key := k } } }

/-- Go `CreateK8sObjects(app *spec.App)`: the first component is `*app` on return. -/
def CreateK8sObjects (parse : String → Except String Q) (app : spec.App) :
    spec.App × Except String (List (Object Q)) :=
  let objects : List (Object Q) := []
  let app : spec.App := if app.Labels = none then { app with Labels := getLabels app } else app
  let svcs : List (Object Q) := createServices app
  match containersLoop parse app [] app.PodSpec.Containers with
  | (app, .error err) => (app, .error err)
  | (app, .ok pvcs) =>
    let app : spec.App :=
      if app.PodSpec.Containers.length = 1 ∧
          app.PodSpec.Containers[0]?.map Container.Name = some "" then
        setContainer0Name app app.Name
      else app
    let configMap : Option ConfigMap :=
      if lenMap app.ConfigData > 0 then
        some { ObjectMeta := { Name := app.Name }, Data := app.ConfigData }
      else none
    let app : spec.App :=
      if lenMap app.ConfigData > 0 then
        if app.PodSpec.Containers.length = 1 ∧ ¬ isAnyConfigMapRef app then
          (rangeKeys app.ConfigData).foldl
            (fun app k => appendContainer0Env app (configMapEnvVar app k)) app
        else app
      else app
    let deployment := createDeployment app
    let objects := objects ++ [Object.Deployment deployment]
    let objects :=
      match configMap with
      | some configMap => objects ++ [Object.ConfigMap configMap]
      | none => objects
    let objects := objects ++ svcs
    let objects := objects ++ pvcs
    (app, .ok objects)

/-- Concrete Go type of an object, as `Scheme.ObjectKind` sees it. -/
def goType : Object Q → GoType
  | .Deployment _ => .Deployment
  | .ConfigMap _ => .ConfigMap
  | .Service _ => .Service
  | .Ingress _ => .Ingress
  | .PersistentVolumeClaim _ => .PersistentVolumeClaim

/-- Format `%T` of an object. -/
def formatT : GoType → String
  | .Deployment => "*v1beta1.Deployment"
  | .ConfigMap => "*v1.ConfigMap"
  | .Service => "*v1.Service"
  | .Ingress => "*v1beta1.Ingress"
  | .PersistentVolumeClaim => "*v1.PersistentVolumeClaim"

/-- Go `GroupVersionKind.ToAPIVersionAndKind` of the Kubernetes library. -/
def ToAPIVersionAndKind (gvk : GroupVersionKind) : TypeMeta :=
  if gvk.Group = "" ∧ gvk.Version = "" ∧ gvk.Kind = "" then { Kind := "", APIVersion := "" }
  else if gvk.Group = "" then { Kind := gvk.Kind, APIVersion := gvk.Version }
  else { Kind := gvk.Kind, APIVersion := gvk.Group ++ "/" ++ gvk.Version }

/-- Go `runtimeObject.GetObjectKind().SetGroupVersionKind(gvk)`. -/
def SetGroupVersionKind (gvk : GroupVersionKind) : Object Q → Object Q
  | .Deployment d => .Deployment { d with TypeMeta := ToAPIVersionAndKind gvk }
  | .ConfigMap c => .ConfigMap { c with TypeMeta := ToAPIVersionAndKind gvk }
  | .Service s => .Service { s with TypeMeta := ToAPIVersionAndKind gvk }
  | .Ingress i => .Ingress { i with TypeMeta := ToAPIVersionAndKind gvk }
  | .PersistentVolumeClaim p => .PersistentVolumeClaim { p with TypeMeta := ToAPIVersionAndKind gvk }

/-- The loop of `Transform` over the objects: each one is stamped in place,
so the list returned at the end holds the stamped objects. -/
def stampLoop (scheme : Scheme) : List (Object Q) → Except String (List (Object Q))
  | [] => .ok []
  | runtimeObject :: rest =>
    match scheme (goType runtimeObject) with
    | .error err => .error (wrap err "ConvertToVersion failed")
    | .ok (gvk, isUnversioned) =>
      if isUnversioned then
        .error ("ConvertToVersion failed: can't output unversioned type: " ++
          formatT (goType runtimeObject))
      else
        match stampLoop scheme rest with
        | .error err => .error err
        | .ok rest => .ok (SetGroupVersionKind gvk runtimeObject :: rest)

/-- Go `Transform(app *spec.App)`: the first component is `*app` on return. -/
def Transform (parse : String → Except String Q) (scheme : Scheme) (app : spec.App) :
    spec.App × Except String (List (Object Q)) :=
  match CreateK8sObjects parse app with
  | (app, .error err) => (app, .error (wrap err "failed to create Kubernetes objects"))
  | (app, .ok runtimeObjects) => (app, stampLoop scheme runtimeObjects)

/-! ## Vocabulary of the statements

The definitions below are not part of the program: they name the quantities
the properties speak about. -/

/-- All volume mounts of the model: container order, then mount order. -/
def volumeMounts (app : spec.App) : List VolumeMount :=
  app.PodSpec.Containers.flatMap (fun c => c.VolumeMounts)

/-- Names of all volume mounts of the model, in the same order. -/
def mountNames (app : spec.App) : List String :=
  (volumeMounts app).map (fun vm => vm.Name)

/-- The model as it stands after the defaulting of the labels. -/
def withLabels (app : spec.App) : spec.App :=
  if app.Labels = none then { app with Labels := getLabels app } else app

/-- The pod volume bound to the claim of the same name. -/
def claimVolume (name : String) : api_v1.Volume :=
  { Name := name, VolumeSource := { PersistentVolumeClaim := some { ClaimName := name } } }

/-- The step of `CreateK8sObjects` that names the only container after the
application when it has no name. -/
def withContainerName (app : spec.App) : spec.App :=
  if app.PodSpec.Containers.length = 1 ∧
      app.PodSpec.Containers[0]?.map Container.Name = some "" then
    setContainer0Name app app.Name
  else app

/-- The step of `CreateK8sObjects` that adds the environment variables of the
ConfigMap keys to the only container. -/
def withConfigMapEnv (app : spec.App) : spec.App :=
  if lenMap app.ConfigData > 0 then
    if app.PodSpec.Containers.length = 1 ∧ ¬ isAnyConfigMapRef app then
      (rangeKeys app.ConfigData).foldl
        (fun app k => appendContainer0Env app (configMapEnvVar app k)) app
    else app
  else app

/-- The ConfigMap object of the application, when there is one. -/
def configMapObjects (app : spec.App) : List (Object Q) :=
  if lenMap app.ConfigData > 0 then
    [Object.ConfigMap { ObjectMeta := { Name := app.Name }, Data := app.ConfigData }]
  else []

/-- The PersistentVolume-Intent with the default size and access mode. -/
def defaultIntent (name : String) : spec.Volume :=
  { Volume := claimVolume name, Size := "100Mi", AccessModes := ["ReadWriteOnce"] }

/-- The first PersistentVolume-Intent of the list with the given name. -/
def findIntent (name : String) (pvs : List spec.Volume) : Option spec.Volume :=
  pvs.find? (fun v => decide (name = v.Volume.Name))

/-- The size string of an intent, "100Mi" standing for the empty one. -/
def sizeOrDefault (v : spec.Volume) : String :=
  if v.Size = "" then "100Mi" else v.Size

/-- The size string resolved for a mount name: the size of the declared intent
of that name, or "100Mi" when that size is empty or no intent is declared. -/
def resolvedSize (pvs : List spec.Volume) (name : String) : String :=
  match findIntent name pvs with
  | some v => sizeOrDefault v
  | none => "100Mi"

/-- The access-mode strings resolved for a mount name: those of the declared
intent of that name, or the default one when no intent is declared. -/
def resolvedModes (pvs : List spec.Volume) (name : String) : List String :=
  match findIntent name pvs with
  | some v => v.AccessModes
  | none => ["ReadWriteOnce"]

/-- Recognised access-mode strings. -/
def isAccessMode (mode : String) : Bool :=
  decide (mode = "ReadWriteOnce") || decide (mode = "ReadOnlyMany") ||
    decide (mode = "ReadWriteMany")

/-- Access modes of the claim made from a list of access-mode strings. -/
def claimModes (modes : List String) : List String :=
  if modes = [] then ["ReadWriteOnce"] else modes.filter isAccessMode

/-- The claim with the given name, access modes and requested storage. -/
def claimOf (name : String) (modes : List String) (size : Q) : PersistentVolumeClaim Q :=
  { ObjectMeta := { Name := name },
    Spec := { AccessModes := modes, Resources := { Requests := [("storage", size)] } } }

/-- The claim of one mount name, or the error of the size that does not parse. -/
def claimFor (parse : String → Except String Q) (pvs : List spec.Volume) (name : String) :
    Except String (PersistentVolumeClaim Q) :=
  match parse (resolvedSize pvs name) with
  | .error err => .error (wrap (wrap err "could not read volume size") "cannot create pvc")
  | .ok size => .ok (claimOf name (claimModes (resolvedModes pvs name)) size)

/-- The claims of a list of mount names, or the first error. -/
def claimsFor (parse : String → Except String Q) (pvs : List spec.Volume) :
    List String → Except String (List (PersistentVolumeClaim Q))
  | [] => .ok []
  | name :: names =>
    match claimFor parse pvs name with
    | .error err => .error err
    | .ok pvc =>
      match claimsFor parse pvs names with
      | .error err => .error err
      | .ok pvcs => .ok (pvc :: pvcs)

/-- The intents after one mount name has been handled: the first intent of that
name gets its empty size replaced, or the default intent is appended. -/
def touchIntents (name : String) : List spec.Volume → List spec.Volume
  | [] => [defaultIntent name]
  | v :: vs =>
    if name = v.Volume.Name then { v with Size := sizeOrDefault v } :: vs
    else v :: touchIntents name vs

/-- The model after the loop over all volume mounts, when no size failed to
parse: the labels are set, every mount has added its pod volume, and the
intents have been handled mount by mount. -/
def afterMounts (app : spec.App) : spec.App :=
  { withLabels app with
    PodSpec := { app.PodSpec with
      Volumes := app.PodSpec.Volumes ++ (mountNames app).map claimVolume },
    PersistentVolumes :=
      (mountNames app).foldl (fun pvs n => touchIntents n pvs) app.PersistentVolumes }

/-- The PersistentVolumeClaims of an object list, in order. -/
def pvcsOf (objs : List (Object Q)) : List (PersistentVolumeClaim Q) :=
  objs.filterMap (fun o => match o with
    | .PersistentVolumeClaim p => some p
    | _ => none)

/-- Labels in the metadata of an object. -/
def objectLabels : Object Q → StrMap
  | .Deployment d => d.ObjectMeta.Labels
  | .ConfigMap c => c.ObjectMeta.Labels
  | .Service s => s.ObjectMeta.Labels
  | .Ingress i => i.ObjectMeta.Labels
  | .PersistentVolumeClaim p => p.ObjectMeta.Labels

/-- A container has an environment variable whose ConfigMap key source names
the application. -/
def hasConfigMapEnvRef (app : spec.App) : Prop :=
  ∃ c ∈ app.PodSpec.Containers, ∃ env ∈ c.Env, ∃ valueFrom ref,
    env.ValueFrom = some valueFrom ∧ valueFrom.ConfigMapKeyRef = some ref ∧ ref.Name = app.Name

/-- A pod volume has a ConfigMap source that names the application. -/
def hasConfigMapVolumeRef (app : spec.App) : Prop :=
  ∃ v ∈ app.PodSpec.Volumes, ∃ cm, v.VolumeSource.ConfigMap = some cm ∧ cm.Name = app.Name

/-- A quantity parser for the examples: it reads two sizes and rejects the rest. -/
def sampleParse (s : String) : Except String Nat :=
  if s = "100Mi" then .ok 104857600
  else if s = "1Gi" then .ok 1073741824
  else .error "unable to parse quantity"

/-- The HTTP routing built when the rule has none: path `/` to the port of the
service of the intent. -/
def rootPathHTTP (s : spec.ServiceSpec) (port0 : ServicePort) : ext_v1beta1.HTTPIngressRuleValue :=
  { Paths := [{ Path := "/",
                Backend := { ServiceName := s.Name, ServicePort := intstr.FromInt port0.Port } }] }

/-- The Service built for an intent: named after it, with the labels of the
application, and the selector of the intent or, when that is empty, the labels
of the application. -/
def serviceOf (app : spec.App) (s : spec.ServiceSpec) : Service :=
  { ObjectMeta := { Name := s.Name, Labels := app.Labels },
    Spec := if lenMap s.ServiceSpec.Selector = 0 then
        { s.ServiceSpec with Selector := app.Labels }
      else s.ServiceSpec }

/-- The case in which `createServices` builds an Ingress for an intent. -/
def hasIngress (s : spec.ServiceSpec) : Prop :=
  s.ServiceSpec.Type_ = ServiceTypeLoadBalancer ∧
    ((s.Rules.length = 1 ∧ s.ServiceSpec.Ports.length = 1) ∨ s.Rules.length > 1)

/-- The objects `createServices` adds to its list for one Service-Intent. -/
def intentObjects (app : spec.App) (s : spec.ServiceSpec) : List (Object Q) :=
  createServicesBody app [] s

/-- The Services of an object list, in order. -/
def servicesOf (objs : List (Object Q)) : List Service :=
  objs.filterMap (fun o => match o with
    | .Service s => some s
    | _ => none)

/-- The Deployments of an object list, in order. -/
def deploymentsOf (objs : List (Object Q)) : List ext_v1beta1.Deployment :=
  objs.filterMap (fun o => match o with
    | .Deployment d => some d
    | _ => none)

/-- Kind and API version in the type metadata of an object. -/
def typeMeta : Object Q → TypeMeta
  | .Deployment d => d.TypeMeta
  | .ConfigMap c => c.TypeMeta
  | .Service s => s.TypeMeta
  | .Ingress i => i.TypeMeta
  | .PersistentVolumeClaim p => p.TypeMeta

/-- The stamping step of `Transform` on one object, for a scheme given by the
group/version/kind of each type. -/
def stamp (gvkOf : GoType → GroupVersionKind) (o : Object Q) : Object Q :=
  SetGroupVersionKind (gvkOf (goType o)) o

/-- The scheme has no versioned group/version/kind for a type: the lookup
fails or reports the type as unversioned. -/
def unresolved (scheme : Scheme) (t : GoType) : Prop :=
  (∃ err, scheme t = .error err) ∨ ∃ gvk, scheme t = .ok (gvk, true)

/-- The group/version/kind of the five types in the Kubernetes scheme. -/
def sampleGVK : GoType → GroupVersionKind
  | .Deployment => { Group := "extensions", Version := "v1beta1", Kind := "Deployment" }
  | .ConfigMap => { Version := "v1", Kind := "ConfigMap" }
  | .Service => { Version := "v1", Kind := "Service" }
  | .Ingress => { Group := "extensions", Version := "v1beta1", Kind := "Ingress" }
  | .PersistentVolumeClaim => { Version := "v1", Kind := "PersistentVolumeClaim" }

/-- A scheme for the examples: every type is versioned. -/
def sampleScheme : Scheme :=
  fun t => .ok (sampleGVK t, false)

/-- A scheme for the examples that reports `ConfigMap` as unversioned. -/
def schemeWithoutConfigMap : Scheme :=
  fun t => .ok (sampleGVK t, decide (t = GoType.ConfigMap))

/-! ## Example models -/

/-- The model of the scenario: one container with one mount, nothing declared. -/
def exampleWeb : spec.App :=
  { Name := "web", PodSpec := { Containers := [{ VolumeMounts := [{ Name := "data" }] }] } }

/-- The model of the scenario after one run. -/
def exampleWebAfter : spec.App :=
  { Name := "web",
    Labels := some [("app", "web")],
    PersistentVolumes := [defaultIntent "data"],
    PodSpec := { Volumes := [claimVolume "data"],
                 Containers := [{ Name := "web", VolumeMounts := [{ Name := "data" }] }] } }

/-- The model of the scenario after two runs. -/
def exampleWebAfterTwice : spec.App :=
  { Name := "web",
    Labels := some [("app", "web")],
    PersistentVolumes := [defaultIntent "data"],
    PodSpec := { Volumes := [claimVolume "data", claimVolume "data"],
                 Containers := [{ Name := "web", VolumeMounts := [{ Name := "data" }] }] } }

/-- A load-balanced intent with one rule without HTTP routing and one port. -/
def exampleFront : spec.ServiceSpec :=
  { Name := "front",
    ServiceSpec := { Type_ := "LoadBalancer", Ports := [{ Port := 8080 }] },
    Rules := [{ Host := "shop.example.com" }] }

/-- A model with configuration data, a declared intent, a load-balanced service
and one container with two mounts. -/
def exampleShop : spec.App :=
  { Name := "shop",
    Replicas := some 2,
    ConfigData := some [("MODE", "fast"), ("REGION", "eu")],
    PersistentVolumes :=
      [{ Volume := { Name := "data" }, Size := "1Gi", AccessModes := ["ReadWriteMany", "Shared"] }],
    Services := [exampleFront],
    PodSpec :=
      { Containers :=
          [{ Image := "shop:1", Env := [{ Name := "DEBUG", Value := "0" }],
             VolumeMounts := [{ Name := "data" }, { Name := "cache" }] }] } }

/-- Two containers that mount the same volume. -/
def exampleShared : spec.App :=
  { Name := "pair",
    ConfigData := some [("MODE", "fast")],
    PodSpec :=
      { Containers :=
          [{ Name := "writer", VolumeMounts := [{ Name := "data" }] },
           { Name := "reader", VolumeMounts := [{ Name := "data" }] }] } }

/-- One container without environment variables, configuration data, and a pod
volume filled from the ConfigMap of the application. -/
def exampleConfigVolume : spec.App :=
  { Name := "web",
    ConfigData := some [("MODE", "fast")],
    PodSpec :=
      { Volumes := [{ Name := "settings", VolumeSource := { ConfigMap := some { Name := "web" } } }],
        Containers := [{ Name := "web" }] } }

/-- A declared intent whose size is not a quantity, mounted before a volume
that has no declared intent. -/
def exampleBadSize : spec.App :=
  { Name := "web",
    ConfigData := some [("MODE", "fast")],
    PersistentVolumes := [{ Volume := { Name := "data" }, Size := "plenty" }],
    PodSpec :=
      { Containers := [{ VolumeMounts := [{ Name := "data" }, { Name := "cache" }] }] } }

/-- A load-balanced intent with one rule without HTTP routing and two ports. -/
def exampleTwoPorts : spec.ServiceSpec :=
  { Name := "api",
    ServiceSpec := { Type_ := "LoadBalancer", Ports := [{ Port := 80 }, { Port := 443 }] },
    Rules := [{ Host := "api.example.com" }] }

/-- A load-balanced intent with two rules and an ingress override. -/
def exampleTwoRules : spec.ServiceSpec :=
  { Name := "site",
    ServiceSpec := { Type_ := "LoadBalancer", Ports := [{ Port := 80 }],
                     Selector := some [("tier", "front")] },
    Rules := [{ Host := "a.example.com" }, { Host := "b.example.com" }],
    IngressSpec := { Backend := some { ServiceName := "site", ServicePort := intstr.FromInt 80 } } }

/-- A model whose services are the two intents above and a cluster-internal one. -/
def exampleGateway : spec.App :=
  { Name := "gateway",
    Labels := some [("team", "edge")],
    Services := [exampleTwoPorts, exampleTwoRules, { Name := "internal" }],
    PodSpec := { Containers := [{ Name := "proxy" }, { Name := "sidecar" }] } }

/-! # Properties -/

/-! ## Lemmas on `createPVC` -/

theorem foldl_appendAccessMode (modes : List String) (pvc : PersistentVolumeClaim Q) :
    modes.foldl appendAccessMode pvc =
      { pvc with Spec := { pvc.Spec with
          AccessModes := pvc.Spec.AccessModes ++ modes.filter isAccessMode } } := by
  induction modes generalizing pvc with
  | nil => simp
  | cons m ms ih =>
    rw [List.foldl_cons, ih]
    by_cases h1 : m = "ReadWriteOnce"
    · subst h1
      simp [appendAccessMode, isAccessMode, ReadWriteOnce]
    · by_cases h2 : m = "ReadOnlyMany"
      · subst h2
        simp [appendAccessMode, isAccessMode, ReadOnlyMany]
      · by_cases h3 : m = "ReadWriteMany"
        · subst h3
          simp [appendAccessMode, isAccessMode, ReadWriteMany]
        · simp [appendAccessMode, isAccessMode, h1, h2, h3]

theorem createPVC_eq (parse : String → Except String Q) (v : spec.Volume) :
    createPVC parse v =
      ({ v with Size := sizeOrDefault v },
        match parse (sizeOrDefault v) with
        | .error err => .error (wrap err "could not read volume size")
        | .ok size => .ok (claimOf v.Volume.Name (claimModes v.AccessModes) size)) := by
  unfold createPVC
  by_cases hs : v.Size = ""
  · simp only [hs, sizeOrDefault, if_true, DefaultVolumeSize]
    cases hp : parse "100Mi" with
    | error e => simp
    | ok q =>
      simp only [foldl_appendAccessMode]
      by_cases hm : v.AccessModes = []
      · simp [hm, claimOf, claimModes, ReadWriteOnce, ResourceStorage]
      · simp [hm, claimOf, claimModes, ReadWriteOnce, ResourceStorage]
  · have hv : ({ v with Size := v.Size } : spec.Volume) = v := rfl
    simp only [hs, sizeOrDefault, if_false]
    cases hp : parse v.Size with
    | error e => simp
    | ok q =>
      simp only [foldl_appendAccessMode]
      by_cases hm : v.AccessModes = []
      · simp [hm, claimOf, claimModes, ReadWriteOnce, ResourceStorage]
        cases v
        simp_all
      · simp [hm, claimOf, claimModes, ReadWriteOnce, ResourceStorage]

/-! ## Lemmas on `searchVolumeIndex` -/

theorem searchVolumeIndexFrom_of_findIntent_none (name : String) (pvs : List spec.Volume)
    (i : Nat) (h : findIntent name pvs = none) :
    searchVolumeIndexFrom name pvs i = -1 ∧
      touchIntents name pvs = pvs ++ [defaultIntent name] := by
  induction pvs generalizing i with
  | nil => simp [searchVolumeIndexFrom, touchIntents]
  | cons v vs ih =>
    by_cases hn : name = v.Volume.Name
    · simp [findIntent, List.find?_cons, hn] at h
    · have h2 : findIntent name vs = none := by
        simpa [findIntent, List.find?_cons, hn] using h
      obtain ⟨h3, h4⟩ := ih (i + 1) h2
      simp [searchVolumeIndexFrom, touchIntents, hn, h3, h4]

theorem searchVolumeIndexFrom_of_findIntent_some (name : String) (pvs : List spec.Volume)
    (i : Nat) (v : spec.Volume) (h : findIntent name pvs = some v) :
    ∃ j : Nat, searchVolumeIndexFrom name pvs i = ((i + j : Nat) : Int) ∧
      pvs[j]? = some v ∧ v.Volume.Name = name ∧
      pvs.set j { v with Size := sizeOrDefault v } = touchIntents name pvs := by
  induction pvs generalizing i with
  | nil => simp [findIntent] at h
  | cons w ws ih =>
    by_cases hn : name = w.Volume.Name
    · have hw : w = v := by simpa [findIntent, List.find?_cons, hn] using h
      subst hw
      exact ⟨0, by simp [searchVolumeIndexFrom, hn], by simp, hn.symm,
        by simp [touchIntents, hn]⟩
    · have h2 : findIntent name ws = some v := by
        simpa [findIntent, List.find?_cons, hn] using h
      obtain ⟨j, h3, h4, h5, h6⟩ := ih (i + 1) h2
      refine ⟨j + 1, ?_, by simpa using h4, h5, ?_⟩
      · simp only [searchVolumeIndexFrom, hn, if_false, h3]
        congr 1
        omega
      · simp [touchIntents, hn, h6]

theorem volumeMountBody_eq (parse : String → Except String Q) (app : spec.App)
    (pvcs : List (Object Q)) (vm : VolumeMount) :
    volumeMountBody parse app pvcs vm =
      ({ app with
          PodSpec := { app.PodSpec with Volumes := app.PodSpec.Volumes ++ [claimVolume vm.Name] },
          PersistentVolumes := touchIntents vm.Name app.PersistentVolumes },
        match claimFor parse app.PersistentVolumes vm.Name with
        | .error err => .error err
        | .ok pvc => .ok (pvcs ++ [Object.PersistentVolumeClaim pvc])) := by
  unfold volumeMountBody
  cases hf : findIntent vm.Name app.PersistentVolumes with
  | none =>
    obtain ⟨h1, h2⟩ := searchVolumeIndexFrom_of_findIntent_none vm.Name app.PersistentVolumes 0 hf
    simp only [isVolumeDefined, searchVolumeIndex, h1, createPVC_eq, claimFor, resolvedSize,
      resolvedModes, hf, h2, claimVolume, defaultIntent, DefaultVolumeSize, DefaultVolumeType,
      sizeOrDefault]
    cases hp : parse "100Mi" with
    | error e => simp [hp]
    | ok q => simp [hp, claimModes, isAccessMode]
  | some v =>
    obtain ⟨j, h1, h2, h3, h4⟩ :=
      searchVolumeIndexFrom_of_findIntent_some vm.Name app.PersistentVolumes 0 v hf
    have hne : searchVolumeIndexFrom vm.Name app.PersistentVolumes 0 ≠ -1 := by
      rw [h1]; omega
    simp only [isVolumeDefined, searchVolumeIndex, hne, createPVC_eq, claimFor, resolvedSize,
      resolvedModes, hf, claimVolume]
    simp only [h1, Nat.zero_add, Int.toNat_ofNat, h2, h4, ne_eq, not_false_eq_true, if_true]
    cases hp : parse (sizeOrDefault v) with
    | error e => simp [h4]
    | ok q => simp [h3, h4]

/-! ## Lemmas on the loops of `CreateK8sObjects` -/

theorem sizeOrDefault_idem (v : spec.Volume) :
    sizeOrDefault { v with Size := sizeOrDefault v } = sizeOrDefault v := by
  by_cases h : v.Size = ""
  · simp [sizeOrDefault, h]
  · simp [sizeOrDefault, h]

theorem resolved_touchIntents (m n : String) (pvs : List spec.Volume) :
    resolvedSize (touchIntents m pvs) n = resolvedSize pvs n ∧
      resolvedModes (touchIntents m pvs) n = resolvedModes pvs n := by
  induction pvs with
  | nil =>
    by_cases h : n = m
    · simp [touchIntents, resolvedSize, resolvedModes, findIntent, defaultIntent, claimVolume, h,
        sizeOrDefault]
    · simp [touchIntents, resolvedSize, resolvedModes, findIntent, defaultIntent, claimVolume, h]
  | cons v vs ih =>
    by_cases hm : m = v.Volume.Name
    · by_cases hn : n = v.Volume.Name
      · simp [touchIntents, resolvedSize, resolvedModes, findIntent, hm, hn, sizeOrDefault_idem]
      · simp [touchIntents, resolvedSize, resolvedModes, findIntent, hm, hn]
    · by_cases hn : n = v.Volume.Name
      · simp [touchIntents, resolvedSize, resolvedModes, findIntent, hm, hn]
      · have h1 := ih.1
        have h2 := ih.2
        simp only [resolvedSize, resolvedModes, findIntent] at h1 h2
        simp [touchIntents, resolvedSize, resolvedModes, findIntent, hm, hn, h1, h2]

theorem claimFor_touchIntents (parse : String → Except String Q) (m n : String)
    (pvs : List spec.Volume) :
    claimFor parse (touchIntents m pvs) n = claimFor parse pvs n := by
  simp [claimFor, resolved_touchIntents]

theorem claimsFor_touchIntents (parse : String → Except String Q) (m : String)
    (names : List String) (pvs : List spec.Volume) :
    claimsFor parse (touchIntents m pvs) names = claimsFor parse pvs names := by
  induction names with
  | nil => rfl
  | cons n ns ih => simp [claimsFor, claimFor_touchIntents, ih]

theorem volumeMountsLoop_snd (parse : String → Except String Q) (app : spec.App)
    (pvcs : List (Object Q)) (vms : List VolumeMount) :
    (volumeMountsLoop parse app pvcs vms).2 =
      match claimsFor parse app.PersistentVolumes (vms.map (fun vm => vm.Name)) with
      | .error err => .error err
      | .ok cs => .ok (pvcs ++ cs.map Object.PersistentVolumeClaim) := by
  induction vms generalizing app pvcs with
  | nil => simp [volumeMountsLoop, claimsFor]
  | cons vm vms ih =>
    simp only [volumeMountsLoop, volumeMountBody_eq, List.map_cons, claimsFor]
    cases hc : claimFor parse app.PersistentVolumes vm.Name with
    | error e => simp
    | ok pvc =>
      simp only [ih, claimsFor_touchIntents]
      cases hcs : claimsFor parse app.PersistentVolumes (vms.map (fun vm => vm.Name)) with
      | error e => simp
      | ok cs => simp

/-- The loop only writes to the pod volumes and the PersistentVolume-Intents. -/
theorem volumeMountsLoop_frame (parse : String → Except String Q) (app : spec.App)
    (pvcs : List (Object Q)) (vms : List VolumeMount) :
    ∃ vols pvs, (volumeMountsLoop parse app pvcs vms).1 =
      { app with PodSpec := { app.PodSpec with Volumes := vols }, PersistentVolumes := pvs } := by
  induction vms generalizing app pvcs with
  | nil => exact ⟨app.PodSpec.Volumes, app.PersistentVolumes, rfl⟩
  | cons vm vms ih =>
    simp only [volumeMountsLoop, volumeMountBody_eq]
    cases hc : claimFor parse app.PersistentVolumes vm.Name with
    | error e => exact ⟨_, _, rfl⟩
    | ok pvc =>
      obtain ⟨vols, pvs, h⟩ := ih
        { app with
          PodSpec := { app.PodSpec with Volumes := app.PodSpec.Volumes ++ [claimVolume vm.Name] },
          PersistentVolumes := touchIntents vm.Name app.PersistentVolumes }
        (pvcs ++ [Object.PersistentVolumeClaim pvc])
      exact ⟨vols, pvs, by simp only [h]⟩

/-- The model after a loop that did not fail. -/
theorem volumeMountsLoop_fst (parse : String → Except String Q) (app : spec.App)
    (pvcs : List (Object Q)) (vms : List VolumeMount) (objs : List (Object Q))
    (h : (volumeMountsLoop parse app pvcs vms).2 = .ok objs) :
    (volumeMountsLoop parse app pvcs vms).1 =
      { app with
        PodSpec := { app.PodSpec with
          Volumes := app.PodSpec.Volumes ++ vms.map (fun vm => claimVolume vm.Name) },
        PersistentVolumes :=
          (vms.map (fun vm => vm.Name)).foldl (fun pvs n => touchIntents n pvs)
            app.PersistentVolumes } := by
  induction vms generalizing app pvcs with
  | nil => simp [volumeMountsLoop]
  | cons vm vms ih =>
    simp only [volumeMountsLoop, volumeMountBody_eq] at h ⊢
    cases hc : claimFor parse app.PersistentVolumes vm.Name with
    | error e => simp [hc] at h
    | ok pvc =>
      simp only [hc] at h
      simp only [ih _ _ h]
      simp

theorem volumeMountsLoop_append (parse : String → Except String Q) (app : spec.App)
    (pvcs : List (Object Q)) (xs ys : List VolumeMount) :
    volumeMountsLoop parse app pvcs (xs ++ ys) =
      match volumeMountsLoop parse app pvcs xs with
      | (app, .error err) => (app, .error err)
      | (app, .ok pvcs) => volumeMountsLoop parse app pvcs ys := by
  induction xs generalizing app pvcs with
  | nil => simp [volumeMountsLoop]
  | cons x xs ih =>
    simp only [List.cons_append, volumeMountsLoop]
    rcases hb : volumeMountBody parse app pvcs x with ⟨a, r⟩
    cases r with
    | error e => simp
    | ok p => simp [ih]

theorem containersLoop_eq (parse : String → Except String Q) (app : spec.App)
    (pvcs : List (Object Q)) (cs : List Container) :
    containersLoop parse app pvcs cs =
      volumeMountsLoop parse app pvcs (cs.flatMap (fun c => c.VolumeMounts)) := by
  induction cs generalizing app pvcs with
  | nil => simp [containersLoop, volumeMountsLoop]
  | cons c cs ih =>
    simp only [containersLoop, List.flatMap_cons, volumeMountsLoop_append]
    rcases hb : volumeMountsLoop parse app pvcs c.VolumeMounts with ⟨a, r⟩
    cases r with
    | error e => simp
    | ok p => simp [ih]

/-! ## `CreateK8sObjects` in phases -/

theorem withLabels_containers (app : spec.App) :
    (withLabels app).PodSpec.Containers = app.PodSpec.Containers := by
  unfold withLabels; split <;> rfl

theorem withContainerName_frame (app : spec.App) :
    (withContainerName app).Name = app.Name ∧
      (withContainerName app).ConfigData = app.ConfigData ∧
      (withContainerName app).Labels = app.Labels ∧
      (withContainerName app).Replicas = app.Replicas ∧
      (withContainerName app).Services = app.Services ∧
      (withContainerName app).PersistentVolumes = app.PersistentVolumes ∧
      (withContainerName app).PodSpec.Volumes = app.PodSpec.Volumes := by
  unfold withContainerName
  split <;> simp [setContainer0Name]

theorem CreateK8sObjects_eq (parse : String → Except String Q) (app : spec.App) :
    CreateK8sObjects parse app =
      match volumeMountsLoop parse (withLabels app) [] (volumeMounts app) with
      | (a, .error err) => (a, .error err)
      | (a, .ok pvcs) =>
        (withConfigMapEnv (withContainerName a),
          .ok ([Object.Deployment (createDeployment (withConfigMapEnv (withContainerName a)))] ++
            configMapObjects a ++ createServices (withLabels app) ++ pvcs)) := by
  have hl : (if app.Labels = none then { app with Labels := getLabels app } else app) =
      withLabels app := rfl
  unfold CreateK8sObjects
  simp only [containersLoop_eq, hl, withLabels_containers, volumeMounts]
  rcases hl : volumeMountsLoop parse (withLabels app) []
      (app.PodSpec.Containers.flatMap (fun c => c.VolumeMounts)) with ⟨a, r⟩
  cases r with
  | error e => rfl
  | ok pvcs =>
    have hn : (if a.PodSpec.Containers.length = 1 ∧
        a.PodSpec.Containers[0]?.map Container.Name = some "" then
          setContainer0Name a a.Name else a) = withContainerName a := rfl
    simp only [hn, withConfigMapEnv, configMapObjects, (withContainerName_frame a).1,
      (withContainerName_frame a).2.1]
    by_cases hcd : lenMap a.ConfigData > 0
    · simp [hcd]
    · simp [hcd]

theorem foldl_appendContainer0Env (keys : List String) (app : spec.App) :
    keys.foldl (fun a k => appendContainer0Env a (configMapEnvVar a k)) app =
      { app with PodSpec := { app.PodSpec with
          Containers := app.PodSpec.Containers.modifyHead
            (fun c => { c with Env := c.Env ++ keys.map (configMapEnvVar app) }) } } := by
  induction keys generalizing app with
  | nil =>
    obtain ⟨n, r, l, pv, cd, sv, ⟨vols, cs, rp⟩⟩ := app
    cases cs <;> simp
  | cons k ks ih =>
    rw [List.foldl_cons, ih]
    have hname : configMapEnvVar (appendContainer0Env app (configMapEnvVar app k)) =
        configMapEnvVar app := rfl
    rw [hname]
    cases hcs : app.PodSpec.Containers with
    | nil => simp [appendContainer0Env, hcs]
    | cons c cs => simp [appendContainer0Env, hcs]

theorem withConfigMapEnv_frame (app : spec.App) :
    (withConfigMapEnv app).Name = app.Name ∧
      (withConfigMapEnv app).ConfigData = app.ConfigData ∧
      (withConfigMapEnv app).Labels = app.Labels ∧
      (withConfigMapEnv app).Replicas = app.Replicas ∧
      (withConfigMapEnv app).Services = app.Services ∧
      (withConfigMapEnv app).PersistentVolumes = app.PersistentVolumes ∧
      (withConfigMapEnv app).PodSpec.Volumes = app.PodSpec.Volumes := by
  unfold withConfigMapEnv
  split
  · split
    · simp [foldl_appendContainer0Env]
    · simp
  · simp

theorem withLabels_frame (app : spec.App) :
    (withLabels app).Name = app.Name ∧
      (withLabels app).ConfigData = app.ConfigData ∧
      (withLabels app).Replicas = app.Replicas ∧
      (withLabels app).Services = app.Services ∧
      (withLabels app).PersistentVolumes = app.PersistentVolumes ∧
      (withLabels app).PodSpec = app.PodSpec := by
  unfold withLabels
  split <;> simp

/-- The result of `CreateK8sObjects` when no size fails to parse. -/
theorem CreateK8sObjects_of_claimsFor_ok (parse : String → Except String Q) (app : spec.App)
    (cs : List (PersistentVolumeClaim Q))
    (h : claimsFor parse app.PersistentVolumes (mountNames app) = .ok cs) :
    CreateK8sObjects parse app =
      (withConfigMapEnv (withContainerName (afterMounts app)),
        .ok ([Object.Deployment (createDeployment
            (withConfigMapEnv (withContainerName (afterMounts app))))] ++
          configMapObjects app ++ createServices (withLabels app) ++
          cs.map Object.PersistentVolumeClaim)) := by
  have h2 := volumeMountsLoop_snd parse (withLabels app) [] (volumeMounts app)
  have hpv := (withLabels_frame app).2.2.2.2.1
  have hps := (withLabels_frame app).2.2.2.2.2
  rw [hpv] at h2
  unfold mountNames at h
  rw [h] at h2
  have h1 := volumeMountsLoop_fst parse (withLabels app) [] (volumeMounts app) _ h2
  rw [hpv, hps] at h1
  rw [CreateK8sObjects_eq]
  rcases hl : volumeMountsLoop parse (withLabels app) [] (volumeMounts app) with ⟨a, r⟩
  rw [hl] at h1 h2
  simp only at h1 h2
  subst h1 h2
  simp [afterMounts, mountNames, configMapObjects, (withLabels_frame app).1,
    (withLabels_frame app).2.1, Function.comp_def]

theorem CreateK8sObjects_of_claimsFor_error (parse : String → Except String Q) (app : spec.App)
    (err : String)
    (h : claimsFor parse app.PersistentVolumes (mountNames app) = .error err) :
    (CreateK8sObjects parse app).2 = .error err := by
  have h2 := volumeMountsLoop_snd parse (withLabels app) [] (volumeMounts app)
  rw [(withLabels_frame app).2.2.2.2.1] at h2
  unfold mountNames at h
  rw [h] at h2
  rw [CreateK8sObjects_eq]
  rcases hl : volumeMountsLoop parse (withLabels app) [] (volumeMounts app) with ⟨a, r⟩
  rw [hl] at h2
  simp only at h2
  subst h2
  rfl

/-! ## Lemmas on `createServices` -/

/-- One turn of the loop only adds Services and Ingresses that carry the
labels of the application. -/
theorem createServicesBody_mem (app : spec.App) (svcs : List (Object Q))
    (s : spec.ServiceSpec)
    (h : ∀ o ∈ svcs, (goType o = GoType.Service ∨ goType o = GoType.Ingress) ∧
      objectLabels o = app.Labels) :
    ∀ o ∈ createServicesBody app svcs s,
      (goType o = GoType.Service ∨ goType o = GoType.Ingress) ∧ objectLabels o = app.Labels := by
  intro o ho
  unfold createServicesBody at ho
  simp only at ho
  split_ifs at ho
  all_goals try split at ho
  all_goals
    simp only [List.mem_append, List.mem_singleton] at ho
    first
    | (rcases ho with (ho | ho) | ho <;>
        first
        | exact h o ho
        | (subst ho; simp [goType, objectLabels]))
    | (rcases ho with ho | ho <;>
        first
        | exact h o ho
        | (subst ho; simp [goType, objectLabels]))

theorem foldl_createServicesBody_mem (app : spec.App) (ss : List spec.ServiceSpec)
    (svcs : List (Object Q))
    (h : ∀ o ∈ svcs, (goType o = GoType.Service ∨ goType o = GoType.Ingress) ∧
      objectLabels o = app.Labels) :
    ∀ o ∈ ss.foldl (createServicesBody app) svcs,
      (goType o = GoType.Service ∨ goType o = GoType.Ingress) ∧ objectLabels o = app.Labels := by
  induction ss generalizing svcs with
  | nil => simpa using h
  | cons s ss ih =>
    rw [List.foldl_cons]
    exact ih _ (createServicesBody_mem app svcs s h)

theorem createServices_spec (app : spec.App) :
    ∀ o ∈ (createServices app : List (Object Q)),
      (goType o = GoType.Service ∨ goType o = GoType.Ingress) ∧ objectLabels o = app.Labels := by
  unfold createServices
  exact foldl_createServicesBody_mem app app.Services [] (by simp)

theorem pvcsOf_createServices (app : spec.App) :
    pvcsOf (createServices app : List (Object Q)) = [] := by
  unfold pvcsOf
  rw [List.filterMap_eq_nil_iff]
  intro o ho
  have h := (createServices_spec app o ho).1
  cases o <;> simp [goType] at h ⊢

theorem pvcsOf_map (cs : List (PersistentVolumeClaim Q)) :
    pvcsOf (cs.map Object.PersistentVolumeClaim) = cs := by
  induction cs with
  | nil => rfl
  | cons c cs ih =>
    simp only [pvcsOf, List.map_cons, List.filterMap_cons] at ih ⊢
    rw [ih]

theorem pvcsOf_append (xs ys : List (Object Q)) :
    pvcsOf (xs ++ ys) = pvcsOf xs ++ pvcsOf ys := by
  simp [pvcsOf, List.filterMap_append]

theorem pvcsOf_configMapObjects (app : spec.App) :
    pvcsOf (configMapObjects app : List (Object Q)) = [] := by
  unfold configMapObjects
  split <;> simp [pvcsOf]

/-! ## Lemmas on the claims of a list of mount names -/

theorem claimFor_name (parse : String → Except String Q) (pvs : List spec.Volume)
    (n : String) (c : PersistentVolumeClaim Q) (h : claimFor parse pvs n = .ok c) :
    c.ObjectMeta.Name = n := by
  unfold claimFor at h
  split at h
  · simp at h
  · simp only [Except.ok.injEq] at h
    subst h
    rfl

theorem claimsFor_ok (parse : String → Except String Q) (pvs : List spec.Volume)
    (names : List String) (cs : List (PersistentVolumeClaim Q))
    (h : claimsFor parse pvs names = .ok cs) :
    cs.length = names.length ∧
      ∀ (k : Nat) (n : String), names[k]? = some n →
        ∃ c, cs[k]? = some c ∧ claimFor parse pvs n = .ok c := by
  induction names generalizing cs with
  | nil =>
    simp only [claimsFor, Except.ok.injEq] at h
    subst h
    simp
  | cons m ms ih =>
    simp only [claimsFor] at h
    cases hc : claimFor parse pvs m with
    | error e => simp [hc] at h
    | ok c =>
      cases hcs : claimsFor parse pvs ms with
      | error e => simp [hc, hcs] at h
      | ok cs2 =>
        simp only [hc, hcs, Except.ok.injEq] at h
        subst h
        obtain ⟨h1, h2⟩ := ih cs2 hcs
        refine ⟨by simp [h1], ?_⟩
        intro k n hk
        cases k with
        | zero =>
          simp only [List.getElem?_cons_zero, Option.some.injEq] at hk
          subst hk
          exact ⟨c, List.getElem?_cons_zero, hc⟩
        | succ k =>
          simp only [List.getElem?_cons_succ] at hk ⊢
          exact h2 k n hk

theorem claimsFor_names (parse : String → Except String Q) (pvs : List spec.Volume)
    (names : List String) (cs : List (PersistentVolumeClaim Q))
    (h : claimsFor parse pvs names = .ok cs) :
    cs.map (fun c => c.ObjectMeta.Name) = names := by
  induction names generalizing cs with
  | nil =>
    simp only [claimsFor, Except.ok.injEq] at h
    subst h
    rfl
  | cons m ms ih =>
    simp only [claimsFor] at h
    cases hc : claimFor parse pvs m with
    | error e => simp [hc] at h
    | ok c =>
      cases hcs : claimsFor parse pvs ms with
      | error e => simp [hc, hcs] at h
      | ok cs2 =>
        simp only [hc, hcs, Except.ok.injEq] at h
        subst h
        simp [ih cs2 hcs, claimFor_name parse pvs m c hc]

theorem claimsFor_error_iff (parse : String → Except String Q) (pvs : List spec.Volume)
    (names : List String) :
    (∃ err, claimsFor parse pvs names = .error err) ↔
      ∃ n ∈ names, ∃ err, parse (resolvedSize pvs n) = .error err := by
  induction names with
  | nil => simp [claimsFor]
  | cons m ms ih =>
    simp only [claimsFor, List.mem_cons, exists_eq_or_imp]
    cases hp : parse (resolvedSize pvs m) with
    | error e => simp [claimFor, hp]
    | ok q =>
      simp only [claimFor, hp]
      rw [← ih]
      cases hcs : claimsFor parse pvs ms with
      | error e => simp
      | ok cs2 => simp

/-! ## Lemmas on the ConfigMap reference test and the two container steps -/

theorem isAnyConfigMapRef_iff (app : spec.App) :
    isAnyConfigMapRef app = true ↔ hasConfigMapEnvRef app ∨ hasConfigMapVolumeRef app := by
  unfold isAnyConfigMapRef hasConfigMapEnvRef hasConfigMapVolumeRef
  simp only [Bool.or_eq_true, List.any_eq_true]
  constructor
  · rintro (⟨c, hc, env, he, h⟩ | ⟨v, hv, h⟩)
    · left
      refine ⟨c, hc, env, he, ?_⟩
      cases hvf : env.ValueFrom with
      | none => simp [hvf] at h
      | some vf =>
        cases hr : vf.ConfigMapKeyRef with
        | none => simp [hvf, hr] at h
        | some r => exact ⟨vf, r, rfl, hr, by simpa [hvf, hr] using h⟩
    · right
      refine ⟨v, hv, ?_⟩
      cases hcm : v.VolumeSource.ConfigMap with
      | none => simp [hcm] at h
      | some cm => exact ⟨cm, rfl, by simpa [hcm] using h⟩
  · rintro (⟨c, hc, env, he, vf, r, h1, h2, h3⟩ | ⟨v, hv, cm, h1, h2⟩)
    · left
      exact ⟨c, hc, env, he, by simp [h1, h2, h3]⟩
    · right
      exact ⟨v, hv, by simp [h1, h2]⟩

theorem withContainerName_containers (app : spec.App) :
    (withContainerName app).PodSpec.Containers.map (fun c => c.Env) =
        app.PodSpec.Containers.map (fun c => c.Env) ∧
      (withContainerName app).PodSpec.Containers.length = app.PodSpec.Containers.length ∧
      ∀ c, app.PodSpec.Containers = [c] →
        (withContainerName app).PodSpec.Containers =
          [{ c with Name := if c.Name = "" then app.Name else c.Name }] := by
  obtain ⟨n, r, l, pv, cd, sv, ⟨vols, cs, rp⟩⟩ := app
  unfold withContainerName
  cases cs with
  | nil => simp
  | cons c cs =>
    cases cs with
    | nil =>
      by_cases hn : c.Name = ""
      · simp [setContainer0Name, hn]
      · simp [hn]
    | cons c2 cs => simp

theorem hasConfigMapEnvRef_congr (a b : spec.App) (hn : a.Name = b.Name)
    (hc : a.PodSpec.Containers.map (fun c => c.Env) =
      b.PodSpec.Containers.map (fun c => c.Env)) :
    hasConfigMapEnvRef a → hasConfigMapEnvRef b := by
  rintro ⟨c, hcm, env, he, vf, r, h1, h2, h3⟩
  have hmem : c.Env ∈ b.PodSpec.Containers.map (fun c => c.Env) := by
    rw [← hc]
    exact List.mem_map.2 ⟨c, hcm, rfl⟩
  obtain ⟨c2, hc2, hce⟩ := List.mem_map.1 hmem
  exact ⟨c2, hc2, env, by rw [hce]; exact he, vf, r, h1, h2, by rw [h3, hn]⟩

/-- The test sees the same references after the loop over the volume mounts and
the naming of the container as before. -/
theorem isAnyConfigMapRef_withContainerName (app a : spec.App) (names : List String)
    (hn : a.Name = app.Name) (hc : a.PodSpec.Containers = app.PodSpec.Containers)
    (hv : a.PodSpec.Volumes = app.PodSpec.Volumes ++ names.map claimVolume) :
    isAnyConfigMapRef (withContainerName a) = isAnyConfigMapRef app := by
  have h1 : (withContainerName a).PodSpec.Volumes = a.PodSpec.Volumes :=
    (withContainerName_frame a).2.2.2.2.2.2
  have h2 : (withContainerName a).Name = a.Name := (withContainerName_frame a).1
  have h3 := (withContainerName_containers a).1
  rw [hc] at h3
  rw [Bool.eq_iff_iff, isAnyConfigMapRef_iff, isAnyConfigMapRef_iff]
  constructor
  · rintro (h | ⟨v, hvm, cm, h4, h5⟩)
    · exact Or.inl (hasConfigMapEnvRef_congr _ _ (h2.trans hn) h3 h)
    · rw [h1, hv, List.mem_append] at hvm
      rcases hvm with hvm | hvm
      · exact Or.inr ⟨v, hvm, cm, h4, by rw [h5, h2, hn]⟩
      · obtain ⟨n, _, rfl⟩ := List.mem_map.1 hvm
        simp [claimVolume] at h4
  · rintro (h | ⟨v, hvm, cm, h4, h5⟩)
    · exact Or.inl (hasConfigMapEnvRef_congr _ _ (h2.trans hn).symm h3.symm h)
    · refine Or.inr ⟨v, ?_, cm, h4, by rw [h5, h2, hn]⟩
      rw [h1, hv]
      exact List.mem_append_left _ hvm

/-! ## The result of `CreateK8sObjects` -/

theorem CreateK8sObjects_ok_inv (parse : String → Except String Q) (app : spec.App)
    (objs : List (Object Q)) (h : (CreateK8sObjects parse app).2 = .ok objs) :
    ∃ cs, claimsFor parse app.PersistentVolumes (mountNames app) = .ok cs ∧
      (CreateK8sObjects parse app).1 = withConfigMapEnv (withContainerName (afterMounts app)) ∧
      objs = [Object.Deployment (createDeployment (CreateK8sObjects parse app).1)] ++
        configMapObjects app ++ createServices (withLabels app) ++
        cs.map Object.PersistentVolumeClaim := by
  cases hc : claimsFor parse app.PersistentVolumes (mountNames app) with
  | error e =>
    rw [CreateK8sObjects_of_claimsFor_error parse app e hc] at h
    simp at h
  | ok cs =>
    have h1 := CreateK8sObjects_of_claimsFor_ok parse app cs hc
    rw [h1] at h ⊢
    simp only [Except.ok.injEq] at h
    exact ⟨cs, rfl, rfl, h.symm⟩

theorem pvcsOf_CreateK8sObjects (parse : String → Except String Q) (app : spec.App)
    (objs : List (Object Q)) (h : (CreateK8sObjects parse app).2 = .ok objs) :
    claimsFor parse app.PersistentVolumes (mountNames app) = .ok (pvcsOf objs) := by
  obtain ⟨cs, h1, _, h3⟩ := CreateK8sObjects_ok_inv parse app objs h
  have hd : ∀ d, pvcsOf ([Object.Deployment d] : List (Object Q)) = [] := fun d => rfl
  rw [h3, h1, pvcsOf_append, pvcsOf_append, pvcsOf_append, pvcsOf_createServices,
    pvcsOf_configMapObjects, pvcsOf_map, hd]
  rfl

theorem final_frame (app : spec.App) :
    (withConfigMapEnv (withContainerName (afterMounts app))).Name = app.Name ∧
      (withConfigMapEnv (withContainerName (afterMounts app))).Labels =
        (withLabels app).Labels ∧
      (withConfigMapEnv (withContainerName (afterMounts app))).Replicas = app.Replicas ∧
      (withConfigMapEnv (withContainerName (afterMounts app))).ConfigData = app.ConfigData ∧
      (withConfigMapEnv (withContainerName (afterMounts app))).Services = app.Services ∧
      (withConfigMapEnv (withContainerName (afterMounts app))).PodSpec.Volumes =
        app.PodSpec.Volumes ++ (mountNames app).map claimVolume ∧
      (withConfigMapEnv (withContainerName (afterMounts app))).PersistentVolumes =
        (mountNames app).foldl (fun pvs n => touchIntents n pvs) app.PersistentVolumes := by
  obtain ⟨a1, a2, a3, a4, a5, a6, a7⟩ := withConfigMapEnv_frame (withContainerName (afterMounts app))
  obtain ⟨b1, b2, b3, b4, b5, b6, b7⟩ := withContainerName_frame (afterMounts app)
  obtain ⟨c1, c2, c3, c4, c5, c6⟩ := withLabels_frame app
  rw [a1, a2, a3, a4, a5, a6, a7, b1, b2, b3, b4, b5, b6, b7]
  simp [afterMounts, c1, c2, c3, c4]

theorem isAnyConfigMapRef_afterMounts (app : spec.App) :
    isAnyConfigMapRef (withContainerName (afterMounts app)) = isAnyConfigMapRef app :=
  isAnyConfigMapRef_withContainerName app (afterMounts app) (mountNames app)
    (withLabels_frame app).1 rfl rfl

/-- The containers of the model when the environment variables are added. -/
theorem final_containers_injected (app : spec.App) (c : Container)
    (hcd : lenMap app.ConfigData > 0) (hc : app.PodSpec.Containers = [c])
    (href : isAnyConfigMapRef app = false) :
    (withConfigMapEnv (withContainerName (afterMounts app))).PodSpec.Containers =
      [{ c with
          Name := if c.Name = "" then app.Name else c.Name,
          Env := c.Env ++ (rangeKeys app.ConfigData).map (configMapEnvVar app) }] := by
  have h1 : (withContainerName (afterMounts app)).PodSpec.Containers =
      [{ c with Name := if c.Name = "" then (afterMounts app).Name else c.Name }] :=
    (withContainerName_containers (afterMounts app)).2.2 c hc
  have h2 := isAnyConfigMapRef_afterMounts app
  obtain ⟨b1, b2, _⟩ := withContainerName_frame (afterMounts app)
  have hn : (afterMounts app).Name = app.Name := (withLabels_frame app).1
  have hd : (afterMounts app).ConfigData = app.ConfigData := (withLabels_frame app).2.1
  have hk : configMapEnvVar (withContainerName (afterMounts app)) = configMapEnvVar app := by
    funext k
    simp [configMapEnvVar, b1, hn]
  unfold withConfigMapEnv
  rw [b2, hd, h2, href]
  simp [hcd, h1, foldl_appendContainer0Env, hk, hn]

/-- The environment lists of the containers when no variable is added. -/
theorem final_containers_kept (app : spec.App)
    (h : ¬ (lenMap app.ConfigData > 0 ∧ app.PodSpec.Containers.length = 1 ∧
      isAnyConfigMapRef app = false)) :
    (withConfigMapEnv (withContainerName (afterMounts app))).PodSpec.Containers.map
        (fun c => c.Env) = app.PodSpec.Containers.map (fun c => c.Env) := by
  have h1 := (withContainerName_containers (afterMounts app)).1
  have h1l := (withContainerName_containers (afterMounts app)).2.1
  have h2 := isAnyConfigMapRef_afterMounts app
  obtain ⟨b1, b2, _⟩ := withContainerName_frame (afterMounts app)
  have hd : (afterMounts app).ConfigData = app.ConfigData := (withLabels_frame app).2.1
  have hcs : (afterMounts app).PodSpec.Containers = app.PodSpec.Containers := rfl
  rw [hcs] at h1 h1l
  unfold withConfigMapEnv
  rw [b2, hd, h2, h1l]
  by_cases hcd : lenMap app.ConfigData > 0
  · by_cases hl : app.PodSpec.Containers.length = 1
    · have hr : isAnyConfigMapRef app = true := by
        cases hr : isAnyConfigMapRef app with
        | true => rfl
        | false => exact absurd ⟨hcd, hl, hr⟩ h
      simp [hcd, hl, hr, h1]
    · simp [hcd, hl, h1]
  · simp [hcd, h1]

/-- On the error path the containers of the model are the ones it came with. -/
theorem CreateK8sObjects_error_containers (parse : String → Except String Q) (app : spec.App)
    (err : String) (h : (CreateK8sObjects parse app).2 = .error err) :
    (CreateK8sObjects parse app).1.PodSpec.Containers = app.PodSpec.Containers := by
  rw [CreateK8sObjects_eq] at h ⊢
  obtain ⟨vols, pvs, hf⟩ := volumeMountsLoop_frame parse (withLabels app) [] (volumeMounts app)
  rcases hl : volumeMountsLoop parse (withLabels app) [] (volumeMounts app) with ⟨a, r⟩
  rw [hl] at h hf
  cases r with
  | ok p => simp at h
  | error e =>
    simp only at hf ⊢
    rw [hf]
    exact withLabels_containers app

/-! ## Lemmas on the PersistentVolume-Intents of the model -/

theorem findIntent_eq_none_iff (n : String) (pvs : List spec.Volume) :
    findIntent n pvs = none ↔ n ∉ pvs.map (fun v => v.Volume.Name) := by
  simp only [findIntent, List.find?_eq_none, decide_eq_true_eq, List.mem_map, not_exists,
    not_and]
  constructor
  · intro h x hx hxn
    exact h x hx hxn.symm
  · intro h x hx hxn
    exact h x hx hxn.symm

theorem touchIntents_of_mem (n : String) (xs : List spec.Volume)
    (h : n ∈ xs.map (fun v => v.Volume.Name)) :
    (touchIntents n xs).map (fun v => v.Volume.Name) = xs.map (fun v => v.Volume.Name) ∧
      ∀ ys, touchIntents n (xs ++ ys) = touchIntents n xs ++ ys := by
  induction xs with
  | nil => simp at h
  | cons x xs ih =>
    by_cases hx : n = x.Volume.Name
    · simp [touchIntents, hx]
    · have h2 : n ∈ xs.map (fun v => v.Volume.Name) := by
        simp only [List.map_cons, List.mem_cons] at h
        rcases h with h | h
        · exact absurd h hx
        · exact h
      obtain ⟨i1, i2⟩ := ih h2
      constructor
      · simp [touchIntents, hx, i1]
      · intro ys
        simp [touchIntents, hx, i2 ys]

theorem touchIntents_of_not_mem (n : String) (xs ys : List spec.Volume)
    (h : n ∉ xs.map (fun v => v.Volume.Name)) :
    touchIntents n (xs ++ ys) = xs ++ touchIntents n ys := by
  induction xs with
  | nil => rfl
  | cons x xs ih =>
    simp only [List.map_cons, List.mem_cons, not_or] at h
    simp [touchIntents, h.1, ih h.2]

theorem touchIntents_default (n : String) (ys : List spec.Volume)
    (hd : ∀ w ∈ ys, w = defaultIntent w.Volume.Name) :
    touchIntents n ys =
      if n ∈ ys.map (fun v => v.Volume.Name) then ys else ys ++ [defaultIntent n] := by
  induction ys with
  | nil => simp [touchIntents]
  | cons y ys ih =>
    have hy : y = defaultIntent y.Volume.Name := hd y (List.mem_cons_self _ _)
    have ih2 := ih (fun w hw => hd w (List.mem_cons_of_mem _ hw))
    by_cases hx : n = y.Volume.Name
    · have hs : ({ y with Size := sizeOrDefault y } : spec.Volume) = y := by
        rw [hy]
        rfl
      simp [touchIntents, hx, hs]
    · simp only [touchIntents, hx, if_false, ih2, List.map_cons, List.mem_cons, false_or]
      split <;> simp

/-- The intents after the loop: the declared ones, under their names, followed
by one default intent for every distinct mount name that was not declared. -/
theorem foldl_touchIntents_spec (declared : List spec.Volume) (names : List String) :
    ∃ pre added, names.foldl (fun pvs n => touchIntents n pvs) declared = pre ++ added ∧
      pre.map (fun v => v.Volume.Name) = declared.map (fun v => v.Volume.Name) ∧
      (added.map (fun v => v.Volume.Name)).Nodup ∧
      ∀ w, w ∈ added ↔
        ∃ n ∈ names, n ∉ declared.map (fun v => v.Volume.Name) ∧ w = defaultIntent n := by
  induction names using List.reverseRecOn with
  | nil => exact ⟨declared, [], by simp, rfl, by simp, by simp⟩
  | append_singleton init n ih =>
    obtain ⟨pre, added, h1, h2, h3, h4⟩ := ih
    have hdef : ∀ w ∈ added, w = defaultIntent w.Volume.Name := by
      intro w hw
      obtain ⟨m, _, _, hm⟩ := (h4 w).1 hw
      rw [hm]
      rfl
    rw [List.foldl_append, List.foldl_cons, List.foldl_nil, h1]
    by_cases hn : n ∈ declared.map (fun v => v.Volume.Name)
    · have hn2 : n ∈ pre.map (fun v => v.Volume.Name) := by rw [h2]; exact hn
      obtain ⟨t1, t2⟩ := touchIntents_of_mem n pre hn2
      refine ⟨touchIntents n pre, added, t2 added, by rw [t1, h2], h3, ?_⟩
      intro w
      rw [h4 w]
      constructor
      · rintro ⟨m, hm, hm2, hw⟩
        exact ⟨m, List.mem_append_left _ hm, hm2, hw⟩
      · rintro ⟨m, hm, hm2, hw⟩
        rcases List.mem_append.1 hm with hm | hm
        · exact ⟨m, hm, hm2, hw⟩
        · simp only [List.mem_singleton] at hm
          subst hm
          exact absurd hn hm2
    · have hn2 : n ∉ pre.map (fun v => v.Volume.Name) := by rw [h2]; exact hn
      rw [touchIntents_of_not_mem n pre added hn2, touchIntents_default n added hdef]
      by_cases ha : n ∈ added.map (fun v => v.Volume.Name)
      · rw [if_pos ha]
        refine ⟨pre, added, rfl, h2, h3, ?_⟩
        intro w
        rw [h4 w]
        constructor
        · rintro ⟨m, hm, hm2, hw⟩
          exact ⟨m, List.mem_append_left _ hm, hm2, hw⟩
        · rintro ⟨m, hm, hm2, hw⟩
          rcases List.mem_append.1 hm with hm | hm
          · exact ⟨m, hm, hm2, hw⟩
          · simp only [List.mem_singleton] at hm
            subst hm
            obtain ⟨w2, hw2, hw3⟩ := List.mem_map.1 ha
            obtain ⟨m2, hm3, hm4, hm5⟩ := (h4 w2).1 hw2
            have : m2 = m := by
              rw [hm5] at hw3
              exact hw3
            subst this
            exact ⟨m2, hm3, hm4, hw⟩
      · rw [if_neg ha]
        refine ⟨pre, added ++ [defaultIntent n], rfl, h2, ?_, ?_⟩
        · rw [List.map_append, List.nodup_append]
          refine ⟨h3, by simp, ?_⟩
          intro a ha1 ha2
          simp only [List.map_cons, List.map_nil, List.mem_singleton] at ha2
          have : a = n := ha2
          subst this
          exact ha ha1
        · intro w
          rw [List.mem_append, h4 w]
          constructor
          · rintro (⟨m, hm, hm2, hw⟩ | hw)
            · exact ⟨m, List.mem_append_left _ hm, hm2, hw⟩
            · simp only [List.mem_singleton] at hw
              exact ⟨n, by simp, hn, hw⟩
          · rintro ⟨m, hm, hm2, hw⟩
            rcases List.mem_append.1 hm with hm | hm
            · exact Or.inl ⟨m, hm, hm2, hw⟩
            · simp only [List.mem_singleton] at hm
              subst hm
              exact Or.inr (by simp [hw])

/-- The intents the loop has appended to the declared ones. -/
theorem drop_foldl_touchIntents (declared : List spec.Volume) (names : List String) :
    ((names.foldl (fun pvs n => touchIntents n pvs) declared).take declared.length).map
        (fun v => v.Volume.Name) = declared.map (fun v => v.Volume.Name) ∧
      (((names.foldl (fun pvs n => touchIntents n pvs) declared).drop declared.length).map
        (fun v => v.Volume.Name)).Nodup ∧
      ∀ w, w ∈ (names.foldl (fun pvs n => touchIntents n pvs) declared).drop declared.length ↔
        ∃ n ∈ names, n ∉ declared.map (fun v => v.Volume.Name) ∧ w = defaultIntent n := by
  obtain ⟨pre, added, h1, h2, h3, h4⟩ := foldl_touchIntents_spec declared names
  have hlen : pre.length = declared.length := by
    have := congrArg List.length h2
    simpa using this
  rw [h1, ← hlen, List.drop_left, List.take_left]
  exact ⟨h2, h3, h4⟩

/-! ## The order of the objects -/

/-- C1: when `CreateK8sObjects` succeeds, the list it returns is exactly the
Deployment (made from the model as it stands on return), then the ConfigMap,
named after the application and carrying `configData`, present if and only if
`configData` is not empty, then the objects of `createServices`, then one
PersistentVolumeClaim per volume mount, named after the mounts in container
order and, within a container, mount order. -/
theorem CreateK8sObjects_output_order (parse : String → Except String Q) (app : spec.App)
    (objs : List (Object Q)) (h : (CreateK8sObjects parse app).2 = .ok objs) :
    ∃ cs : List (PersistentVolumeClaim Q),
      objs = [Object.Deployment (createDeployment (CreateK8sObjects parse app).1)] ++
          (if lenMap app.ConfigData > 0 then
            [Object.ConfigMap { ObjectMeta := { Name := app.Name }, Data := app.ConfigData }]
           else []) ++
          createServices (withLabels app) ++ cs.map Object.PersistentVolumeClaim ∧
      cs.map (fun p => p.ObjectMeta.Name) = mountNames app := by
  obtain ⟨cs, h1, _, h3⟩ := CreateK8sObjects_ok_inv parse app objs h
  exact ⟨cs, h3, claimsFor_names parse _ _ cs h1⟩

theorem CreateK8sObjects_output_order_witness :
    ∃ objs, (CreateK8sObjects sampleParse exampleShop).2 = .ok objs ∧
      ∃ cs : List (PersistentVolumeClaim Nat),
        objs = [Object.Deployment (createDeployment (CreateK8sObjects sampleParse exampleShop).1)] ++
            (if lenMap exampleShop.ConfigData > 0 then
              [Object.ConfigMap
                { ObjectMeta := { Name := exampleShop.Name }, Data := exampleShop.ConfigData }]
             else []) ++
            createServices (withLabels exampleShop) ++ cs.map Object.PersistentVolumeClaim ∧
        cs.map (fun p => p.ObjectMeta.Name) = mountNames exampleShop :=
  ⟨_, rfl, CreateK8sObjects_output_order sampleParse exampleShop _ rfl⟩

/-! ## Labels -/

theorem objectLabels_configMapObjects (app : spec.App) :
    ∀ o ∈ (configMapObjects app : List (Object Q)),
      goType o = GoType.ConfigMap ∧ objectLabels o = none := by
  intro o ho
  unfold configMapObjects at ho
  split at ho
  · simp only [List.mem_singleton] at ho
    subst ho
    exact ⟨rfl, rfl⟩
  · simp at ho

theorem claimFor_labels (parse : String → Except String Q) (pvs : List spec.Volume)
    (n : String) (c : PersistentVolumeClaim Q) (h : claimFor parse pvs n = .ok c) :
    c.ObjectMeta.Labels = none := by
  unfold claimFor at h
  split at h
  · simp at h
  · simp only [Except.ok.injEq] at h
    subst h
    rfl

theorem claimsFor_labels (parse : String → Except String Q) (pvs : List spec.Volume)
    (names : List String) (cs : List (PersistentVolumeClaim Q))
    (h : claimsFor parse pvs names = .ok cs) :
    ∀ c ∈ cs, c.ObjectMeta.Labels = none := by
  intro c hc
  obtain ⟨k, hk⟩ := List.getElem?_of_mem hc
  obtain ⟨hlen, hget⟩ := claimsFor_ok parse pvs names cs h
  have hlt : k < names.length := by
    rw [← hlen]
    exact (List.getElem?_eq_some_iff.1 hk).1
  obtain ⟨c2, h1, h2⟩ := hget k names[k] (List.getElem?_eq_getElem hlt)
  rw [hk] at h1
  simp only [Option.some.injEq] at h1
  subst h1
  exact claimFor_labels parse pvs _ c h2

/-- C2 does not hold: the model of the scenario has no labels, and the
PersistentVolumeClaim made for its mount carries none, not the label of the
application. -/
theorem labels_missing_on_claim :
    exampleWeb.Labels = none ∧
      ∃ objs, (CreateK8sObjects sampleParse exampleWeb).2 = .ok objs ∧
        ¬ ∀ o ∈ objs, objectLabels o = some [("app", exampleWeb.Name)] := by
  refine ⟨rfl, _, rfl, ?_⟩
  intro h
  have h2 := h (Object.PersistentVolumeClaim (claimOf "data" ["ReadWriteOnce"] 104857600))
    (by decide)
  simp [objectLabels, claimOf] at h2

/-- C2, amended: for a model without labels on which `CreateK8sObjects`
succeeds, the Deployment (its metadata and the metadata of its pod template),
every Service and every Ingress carry the labels `app: name`, while the
ConfigMap and every PersistentVolumeClaim carry no labels. -/
theorem CreateK8sObjects_labels (parse : String → Except String Q) (app : spec.App)
    (objs : List (Object Q)) (hl : app.Labels = none)
    (h : (CreateK8sObjects parse app).2 = .ok objs) :
    (∀ o ∈ objs, objectLabels o =
        if goType o = GoType.ConfigMap ∨ goType o = GoType.PersistentVolumeClaim then none
        else some [("app", app.Name)]) ∧
      ∀ d, Object.Deployment d ∈ objs →
        d.Spec.Template.ObjectMeta.Labels = some [("app", app.Name)] := by
  obtain ⟨cs, h1, h2, h3⟩ := CreateK8sObjects_ok_inv parse app objs h
  have hf := final_frame app
  have hwl : (withLabels app).Labels = some [("app", app.Name)] := by
    simp [withLabels, hl, getLabels]
  have hsv := createServices_spec (Q := Q) (withLabels app)
  have hcl := claimsFor_labels parse _ _ cs h1
  have hcm := objectLabels_configMapObjects (Q := Q) app
  subst h3
  rw [h2]
  constructor
  · intro o ho
    simp only [List.mem_append, List.mem_singleton, List.mem_map] at ho
    rcases ho with ((ho | ho) | ho) | ⟨c, hc, ho⟩
    · subst ho
      simp [objectLabels, goType, createDeployment, hf.2.1, hwl]
    · obtain ⟨g1, g2⟩ := hcm o ho
      simp [g1, g2]
    · obtain ⟨g1, g2⟩ := hsv o ho
      rw [g2, hwl]
      rcases g1 with g1 | g1 <;> simp [g1]
    · subst ho
      simp [objectLabels, goType, hcl c hc]
  · intro d hd
    simp only [List.mem_append, List.mem_singleton, List.mem_map] at hd
    rcases hd with ((hd | hd) | hd) | ⟨c, hc, hd⟩
    · simp only [Object.Deployment.injEq] at hd
      subst hd
      simp [createDeployment, hf.2.1, hwl]
    · have := (hcm _ hd).1
      simp [goType] at this
    · have := (hsv _ hd).1
      simp [goType] at this
    · simp at hd

theorem CreateK8sObjects_labels_witness :
    exampleShop.Labels = none ∧
      ∃ objs, (CreateK8sObjects sampleParse exampleShop).2 = .ok objs ∧
        (∀ o ∈ objs, objectLabels o =
          if goType o = GoType.ConfigMap ∨ goType o = GoType.PersistentVolumeClaim then none
          else some [("app", exampleShop.Name)]) ∧
        ∀ d, Object.Deployment d ∈ objs →
          d.Spec.Template.ObjectMeta.Labels = some [("app", exampleShop.Name)] :=
  ⟨rfl, _, rfl, CreateK8sObjects_labels sampleParse exampleShop _ rfl rfl⟩

/-! ## One claim per volume mount -/

theorem length_volumeMounts (cs : List Container) (M : Nat)
    (hM : ∀ c ∈ cs, c.VolumeMounts.length = M) :
    (cs.flatMap (fun c => c.VolumeMounts)).length = cs.length * M := by
  induction cs with
  | nil => simp
  | cons c cs ih =>
    have h1 : c.VolumeMounts.length = M := hM c (List.mem_cons_self _ _)
    have h2 := ih (fun c2 hc2 => hM c2 (List.mem_cons_of_mem _ hc2))
    simp only [List.flatMap_cons, List.length_append, List.length_cons, h1, h2]
    ring

/-- C3: for a model with `N` containers that have `M` volume mounts each, on
which `CreateK8sObjects` succeeds, the output holds exactly `N * M`
PersistentVolumeClaims, and the `k`-th of them is named after the `k`-th volume
mount (container order, then mount order); so every mount has a claim of its
name. This needs no assumption on the names of the mounts, so it holds in
particular when they are unique. -/
theorem CreateK8sObjects_claim_per_mount (parse : String → Except String Q) (app : spec.App)
    (objs : List (Object Q)) (N M : Nat)
    (hN : app.PodSpec.Containers.length = N)
    (hM : ∀ c ∈ app.PodSpec.Containers, c.VolumeMounts.length = M)
    (h : (CreateK8sObjects parse app).2 = .ok objs) :
    (pvcsOf objs).length = N * M ∧
      (pvcsOf objs).map (fun p => p.ObjectMeta.Name) = mountNames app ∧
      (∀ (k : Nat) (vm : VolumeMount), (volumeMounts app)[k]? = some vm →
        ∃ p, (pvcsOf objs)[k]? = some p ∧ p.ObjectMeta.Name = vm.Name) ∧
      ∀ vm ∈ volumeMounts app, ∃ p ∈ pvcsOf objs, p.ObjectMeta.Name = vm.Name := by
  have h1 := pvcsOf_CreateK8sObjects parse app objs h
  have hnames := claimsFor_names parse _ _ _ h1
  obtain ⟨hlen, hget⟩ := claimsFor_ok parse _ _ _ h1
  have hk : ∀ (k : Nat) (vm : VolumeMount), (volumeMounts app)[k]? = some vm →
      ∃ p, (pvcsOf objs)[k]? = some p ∧ p.ObjectMeta.Name = vm.Name := by
    intro k vm hvm
    have hn : (mountNames app)[k]? = some vm.Name := by
      simp [mountNames, List.getElem?_map, hvm]
    obtain ⟨c, hc1, hc2⟩ := hget k vm.Name hn
    exact ⟨c, hc1, claimFor_name parse _ _ c hc2⟩
  refine ⟨?_, hnames, hk, ?_⟩
  · rw [hlen, mountNames, List.length_map, volumeMounts, length_volumeMounts _ M hM, hN]
  · intro vm hvm
    obtain ⟨k, hk2⟩ := List.getElem?_of_mem hvm
    obtain ⟨p, hp1, hp2⟩ := hk k vm hk2
    exact ⟨p, List.mem_iff_getElem?.2 ⟨k, hp1⟩, hp2⟩

theorem CreateK8sObjects_claim_per_mount_witness :
    exampleShared.PodSpec.Containers.length = 2 ∧
      (∀ c ∈ exampleShared.PodSpec.Containers, c.VolumeMounts.length = 1) ∧
      ∃ objs : List (Object Nat), (CreateK8sObjects sampleParse exampleShared).2 = .ok objs ∧
        (pvcsOf objs).length = 2 * 1 ∧
        (pvcsOf objs).map (fun p => p.ObjectMeta.Name) = mountNames exampleShared ∧
        (∀ (k : Nat) (vm : VolumeMount), (volumeMounts exampleShared)[k]? = some vm →
          ∃ p, (pvcsOf objs)[k]? = some p ∧ p.ObjectMeta.Name = vm.Name) ∧
        ∀ vm ∈ volumeMounts exampleShared, ∃ p ∈ pvcsOf objs, p.ObjectMeta.Name = vm.Name :=
  ⟨rfl, by decide, _, rfl,
    CreateK8sObjects_claim_per_mount sampleParse exampleShared _ 2 1 rfl (by decide) rfl⟩

/-! ## Mounts, pod volumes and claims -/

/-- C4 does not hold: two containers mount the volume `data`, and the run
succeeds with two pod volumes and two PersistentVolumeClaims of that name. -/
theorem shared_mount_two_claims :
    "data" ∈ mountNames exampleShared ∧
      ∃ objs : List (Object Nat), (CreateK8sObjects sampleParse exampleShared).2 = .ok objs ∧
        ((CreateK8sObjects sampleParse exampleShared).1.PodSpec.Volumes.map
          (fun v => v.Name)).count "data" = 2 ∧
        ((pvcsOf objs).map (fun p => p.ObjectMeta.Name)).count "data" = 2 :=
  ⟨by decide, _, rfl, by decide, by decide⟩

/-- C4, amended: when `CreateK8sObjects` succeeds, a name occurs among the
PersistentVolumeClaims of the output as often as among the volume mounts, and
among the pod volumes of the model (those of the Deployment) as often as among
the declared volumes and the volume mounts together. So every mount name has at
least one pod volume and one claim, every claim is named after a mount, and a
mount name that no other mount and no declared volume bears has exactly one pod
volume and exactly one claim. -/
theorem CreateK8sObjects_mount_counts (parse : String → Except String Q) (app : spec.App)
    (objs : List (Object Q)) (h : (CreateK8sObjects parse app).2 = .ok objs) :
    (∀ n : String, ((pvcsOf objs).map (fun p => p.ObjectMeta.Name)).count n =
        (mountNames app).count n) ∧
      (∀ n : String,
        ((CreateK8sObjects parse app).1.PodSpec.Volumes.map (fun v => v.Name)).count n =
          (app.PodSpec.Volumes.map (fun v => v.Name)).count n + (mountNames app).count n) ∧
      (∀ d, Object.Deployment d ∈ objs →
        d.Spec.Template.Spec.Volumes = (CreateK8sObjects parse app).1.PodSpec.Volumes) ∧
      (∀ p ∈ pvcsOf objs, p.ObjectMeta.Name ∈ mountNames app) ∧
      (∀ n ∈ mountNames app,
        1 ≤ ((CreateK8sObjects parse app).1.PodSpec.Volumes.map (fun v => v.Name)).count n ∧
        1 ≤ ((pvcsOf objs).map (fun p => p.ObjectMeta.Name)).count n) ∧
      ∀ n : String, (mountNames app).count n = 1 →
        (app.PodSpec.Volumes.map (fun v => v.Name)).count n = 0 →
        ((CreateK8sObjects parse app).1.PodSpec.Volumes.map (fun v => v.Name)).count n = 1 ∧
        ((pvcsOf objs).map (fun p => p.ObjectMeta.Name)).count n = 1 := by
  have h1 := pvcsOf_CreateK8sObjects parse app objs h
  have hnames := claimsFor_names parse _ _ _ h1
  obtain ⟨cs, _, h2, h3⟩ := CreateK8sObjects_ok_inv parse app objs h
  have hvol : (CreateK8sObjects parse app).1.PodSpec.Volumes.map (fun v => v.Name) =
      app.PodSpec.Volumes.map (fun v => v.Name) ++ mountNames app := by
    rw [h2, (final_frame app).2.2.2.2.2.1]
    simp [claimVolume, Function.comp_def]
  have hc1 : ∀ n : String, ((pvcsOf objs).map (fun p => p.ObjectMeta.Name)).count n =
      (mountNames app).count n := fun n => by rw [hnames]
  have hc2 : ∀ n : String,
      ((CreateK8sObjects parse app).1.PodSpec.Volumes.map (fun v => v.Name)).count n =
        (app.PodSpec.Volumes.map (fun v => v.Name)).count n + (mountNames app).count n :=
    fun n => by rw [hvol, List.count_append]
  refine ⟨hc1, hc2, ?_, ?_, ?_, ?_⟩
  · intro d hd
    rw [h3] at hd
    simp only [List.mem_append, List.mem_singleton, List.mem_map] at hd
    rcases hd with ((hd | hd) | hd) | ⟨c, hc, hd⟩
    · simp only [Object.Deployment.injEq] at hd
      subst hd
      rfl
    · unfold configMapObjects at hd
      split at hd <;> simp at hd
    · have := (createServices_spec (withLabels app) _ hd).1
      simp [goType] at this
    · simp at hd
  · intro p hp
    rw [← hnames]
    exact List.mem_map.2 ⟨p, hp, rfl⟩
  · intro n hn
    have hpos : 1 ≤ (mountNames app).count n := List.count_pos_iff.2 hn
    rw [hc1, hc2]
    exact ⟨by omega, hpos⟩
  · intro n hm hd
    rw [hc1, hc2, hm, hd]
    exact ⟨rfl, rfl⟩

theorem CreateK8sObjects_mount_counts_witness :
    ∃ objs : List (Object Nat), (CreateK8sObjects sampleParse exampleShop).2 = .ok objs ∧
      ((∀ n : String, ((pvcsOf objs).map (fun p => p.ObjectMeta.Name)).count n =
          (mountNames exampleShop).count n) ∧
      (∀ n : String,
        ((CreateK8sObjects sampleParse exampleShop).1.PodSpec.Volumes.map
            (fun v => v.Name)).count n =
          (exampleShop.PodSpec.Volumes.map (fun v => v.Name)).count n +
            (mountNames exampleShop).count n) ∧
      (∀ d, Object.Deployment d ∈ objs →
        d.Spec.Template.Spec.Volumes =
          (CreateK8sObjects sampleParse exampleShop).1.PodSpec.Volumes) ∧
      (∀ p ∈ pvcsOf objs, p.ObjectMeta.Name ∈ mountNames exampleShop) ∧
      (∀ n ∈ mountNames exampleShop,
        1 ≤ ((CreateK8sObjects sampleParse exampleShop).1.PodSpec.Volumes.map
            (fun v => v.Name)).count n ∧
        1 ≤ ((pvcsOf objs).map (fun p => p.ObjectMeta.Name)).count n) ∧
      ∀ n : String, (mountNames exampleShop).count n = 1 →
        (exampleShop.PodSpec.Volumes.map (fun v => v.Name)).count n = 0 →
        ((CreateK8sObjects sampleParse exampleShop).1.PodSpec.Volumes.map
            (fun v => v.Name)).count n = 1 ∧
        ((pvcsOf objs).map (fun p => p.ObjectMeta.Name)).count n = 1) :=
  ⟨_, rfl, CreateK8sObjects_mount_counts sampleParse exampleShop _ rfl⟩

/-! ## Environment variables of the ConfigMap -/

theorem deployment_of_output (parse : String → Except String Q) (app : spec.App)
    (objs : List (Object Q)) (h : (CreateK8sObjects parse app).2 = .ok objs) :
    ∃ rest, objs = Object.Deployment (createDeployment (CreateK8sObjects parse app).1) :: rest ∧
      ∀ d, Object.Deployment d ∈ objs →
        d = createDeployment (CreateK8sObjects parse app).1 := by
  obtain ⟨cs, _, _, h3⟩ := CreateK8sObjects_ok_inv parse app objs h
  refine ⟨configMapObjects app ++ createServices (withLabels app) ++
    cs.map Object.PersistentVolumeClaim, by rw [h3]; simp, ?_⟩
  intro d hd
  rw [h3] at hd
  simp only [List.mem_append, List.mem_singleton, List.mem_map] at hd
  rcases hd with ((hd | hd) | hd) | ⟨c, hc, hd⟩
  · simpa using hd
  · unfold configMapObjects at hd
    split at hd <;> simp at hd
  · have := (createServices_spec (withLabels app) _ hd).1
    simp [goType] at this
  · simp at hd

/-- C5 does not hold: the model has configuration data, one container and no
environment variable at all, yet the run, which succeeds, adds no variable to
the container, because a pod volume is filled from the ConfigMap of the
application. -/
theorem configMap_volume_blocks_env :
    lenMap exampleConfigVolume.ConfigData > 0 ∧
      exampleConfigVolume.PodSpec.Containers.length = 1 ∧
      ¬ hasConfigMapEnvRef exampleConfigVolume ∧
      (∃ objs : List (Object Nat),
        (CreateK8sObjects sampleParse exampleConfigVolume).2 = .ok objs) ∧
      "MODE" ∈ rangeKeys exampleConfigVolume.ConfigData ∧
      (CreateK8sObjects sampleParse exampleConfigVolume).1.PodSpec.Containers.map
        (fun c => c.Env) = [[]] := by
  refine ⟨by decide, rfl, ?_, ⟨_, rfl⟩, by decide, rfl⟩
  rintro ⟨c, hc, env, he, _⟩
  simp only [exampleConfigVolume, List.mem_singleton] at hc
  subst hc
  simp at he

/-- C5, amended: for a model with non-empty `configData`, exactly one
container, no environment variable whose ConfigMap key source names the
application and no pod volume whose ConfigMap source names it, on which
`CreateK8sObjects` succeeds, the only container of the model gets, after
the variables it had, one variable per key of `configData`, in range order:
its name is the key and its value comes from that key of the ConfigMap named after
the application. -/
theorem CreateK8sObjects_env_added (parse : String → Except String Q) (app : spec.App)
    (c : Container) (objs : List (Object Q))
    (hcd : lenMap app.ConfigData > 0) (hc : app.PodSpec.Containers = [c])
    (hEnv : ¬ hasConfigMapEnvRef app) (hVol : ¬ hasConfigMapVolumeRef app)
    (h : (CreateK8sObjects parse app).2 = .ok objs) :
    ∃ c2, (CreateK8sObjects parse app).1.PodSpec.Containers = [c2] ∧
      c2.Env = c.Env ++ (rangeKeys app.ConfigData).map (fun k =>
        { Name := k,
          ValueFrom := some { ConfigMapKeyRef := some { Name := app.Name, Key := k } } }) ∧
      ∀ k ∈ rangeKeys app.ConfigData,
        ({ Name := k,
           ValueFrom := some { ConfigMapKeyRef := some { Name := app.Name, Key := k } } } :
          EnvVar) ∈ c2.Env := by
  have href : isAnyConfigMapRef app = false := by
    cases hr : isAnyConfigMapRef app with
    | false => rfl
    | true => exact absurd ((isAnyConfigMapRef_iff app).1 hr) (by tauto)
  obtain ⟨cs, _, h2, _⟩ := CreateK8sObjects_ok_inv parse app objs h
  have h4 := final_containers_injected app c hcd hc href
  rw [← h2] at h4
  refine ⟨_, h4, rfl, ?_⟩
  intro k hk
  simp only [List.mem_append, List.mem_map]
  exact Or.inr ⟨k, hk, rfl⟩

theorem CreateK8sObjects_env_added_witness :
    lenMap exampleShop.ConfigData > 0 ∧
      ¬ hasConfigMapEnvRef exampleShop ∧ ¬ hasConfigMapVolumeRef exampleShop ∧
      ∃ c2, (CreateK8sObjects sampleParse exampleShop).1.PodSpec.Containers = [c2] ∧
        c2.Env = [{ Name := "DEBUG", Value := "0" }] ++
          (rangeKeys exampleShop.ConfigData).map (fun k =>
            { Name := k,
              ValueFrom := some { ConfigMapKeyRef := some { Name := exampleShop.Name, Key := k } } }) ∧
        ∀ k ∈ rangeKeys exampleShop.ConfigData,
          ({ Name := k,
             ValueFrom := some { ConfigMapKeyRef := some { Name := exampleShop.Name, Key := k } } } :
            EnvVar) ∈ c2.Env :=
  have hEnv : ¬ hasConfigMapEnvRef exampleShop := by
    intro hr
    have h := (isAnyConfigMapRef_iff exampleShop).2 (Or.inl hr)
    exact absurd h (by decide)
  have hVol : ¬ hasConfigMapVolumeRef exampleShop := by
    intro hr
    have h := (isAnyConfigMapRef_iff exampleShop).2 (Or.inr hr)
    exact absurd h (by decide)
  ⟨by decide, hEnv, hVol,
    CreateK8sObjects_env_added sampleParse exampleShop _ _ (by decide) rfl hEnv hVol rfl⟩

/-- C6: for a model with non-empty `configData` (a map, so without repeated
keys) and exactly one container, with no reference to the ConfigMap
(`isAnyConfigMapRef` is false), the only container of the Deployment in the
output has the environment list of the model followed by exactly one entry per
key of `configData`, in the order the map is ranged over: each entry is named
by its key and refers to that key of the ConfigMap named after the application,
no key is repeated and nothing else is added. -/
theorem CreateK8sObjects_deployment_env (parse : String → Except String Q) (app : spec.App)
    (c : Container) (objs : List (Object Q))
    (hcd : lenMap app.ConfigData > 0) (hkeys : (rangeKeys app.ConfigData).Nodup)
    (hc : app.PodSpec.Containers = [c]) (href : isAnyConfigMapRef app = false)
    (h : (CreateK8sObjects parse app).2 = .ok objs) :
    ∃ d rest c2 added, objs = Object.Deployment d :: rest ∧
      (∀ d2, Object.Deployment d2 ∈ objs → d2 = d) ∧
      d.Spec.Template.Spec.Containers = [c2] ∧
      c2.Env = c.Env ++ added ∧
      added.map (fun e => e.Name) = rangeKeys app.ConfigData ∧
      (added.map (fun e => e.Name)).Nodup ∧
      added.length = lenMap app.ConfigData ∧
      ∀ e ∈ added, e.Name ∈ rangeKeys app.ConfigData ∧ e.Value = "" ∧
        e.ValueFrom = some { ConfigMapKeyRef := some { Name := app.Name, Key := e.Name } } := by
  obtain ⟨rest, h1, h2⟩ := deployment_of_output parse app objs h
  obtain ⟨cs, _, h3, _⟩ := CreateK8sObjects_ok_inv parse app objs h
  have h4 := final_containers_injected app c hcd hc href
  rw [← h3] at h4
  have hnames : ((rangeKeys app.ConfigData).map (configMapEnvVar app)).map (fun e => e.Name) =
      rangeKeys app.ConfigData := by
    simp [configMapEnvVar, Function.comp_def]
  refine ⟨_, rest, _, (rangeKeys app.ConfigData).map (configMapEnvVar app), h1, h2, h4, rfl,
    hnames, by rw [hnames]; exact hkeys, ?_, ?_⟩
  · cases hm : app.ConfigData with
    | none => simp [rangeKeys, lenMap]
    | some l => simp [rangeKeys, lenMap]
  · intro e he
    obtain ⟨k, hk, rfl⟩ := List.mem_map.1 he
    exact ⟨hk, rfl, rfl⟩

theorem CreateK8sObjects_deployment_env_witness :
    lenMap exampleShop.ConfigData > 0 ∧ (rangeKeys exampleShop.ConfigData).Nodup ∧
      isAnyConfigMapRef exampleShop = false ∧
      ∃ objs : List (Object Nat), (CreateK8sObjects sampleParse exampleShop).2 = .ok objs ∧
        ∃ d rest c2 added, objs = Object.Deployment d :: rest ∧
          (∀ d2, Object.Deployment d2 ∈ objs → d2 = d) ∧
          d.Spec.Template.Spec.Containers = [c2] ∧
          c2.Env = [{ Name := "DEBUG", Value := "0" }] ++ added ∧
          added.map (fun e => e.Name) = rangeKeys exampleShop.ConfigData ∧
          (added.map (fun e => e.Name)).Nodup ∧
          added.length = lenMap exampleShop.ConfigData ∧
          ∀ e ∈ added, e.Name ∈ rangeKeys exampleShop.ConfigData ∧ e.Value = "" ∧
            e.ValueFrom =
              some { ConfigMapKeyRef := some { Name := exampleShop.Name, Key := e.Name } } :=
  ⟨by decide, by decide, by decide, _, rfl,
    CreateK8sObjects_deployment_env sampleParse exampleShop _ _ (by decide) (by decide) rfl
      (by decide) rfl⟩

/-- C7: for a model with non-empty `configData` that has more than one
container, or a container with an environment variable that refers to a key of
the ConfigMap named after the application, `CreateK8sObjects` leaves the
environment list of every container as it was, in the model and in the
Deployment it returns, and the ConfigMap object is in the output. -/
theorem CreateK8sObjects_env_kept (parse : String → Except String Q) (app : spec.App)
    (hcd : lenMap app.ConfigData > 0)
    (hcase : app.PodSpec.Containers.length > 1 ∨ hasConfigMapEnvRef app) :
    (CreateK8sObjects parse app).1.PodSpec.Containers.map (fun c => c.Env) =
        app.PodSpec.Containers.map (fun c => c.Env) ∧
      ∀ objs, (CreateK8sObjects parse app).2 = .ok objs →
        Object.ConfigMap { ObjectMeta := { Name := app.Name }, Data := app.ConfigData } ∈ objs ∧
        ∀ d, Object.Deployment d ∈ objs →
          d.Spec.Template.Spec.Containers.map (fun c => c.Env) =
            app.PodSpec.Containers.map (fun c => c.Env) := by
  have hno : ¬ (lenMap app.ConfigData > 0 ∧ app.PodSpec.Containers.length = 1 ∧
      isAnyConfigMapRef app = false) := by
    rintro ⟨_, h1, h2⟩
    rcases hcase with hl | hr
    · omega
    · have := (isAnyConfigMapRef_iff app).2 (Or.inl hr)
      rw [h2] at this
      exact absurd this (by decide)
  have hkept := final_containers_kept app hno
  have hok : ∀ objs, (CreateK8sObjects parse app).2 = .ok objs →
      (CreateK8sObjects parse app).1.PodSpec.Containers.map (fun c => c.Env) =
        app.PodSpec.Containers.map (fun c => c.Env) := by
    intro objs h
    obtain ⟨cs, _, h2, _⟩ := CreateK8sObjects_ok_inv parse app objs h
    rw [h2]
    exact hkept
  constructor
  · cases hr : (CreateK8sObjects parse app).2 with
    | error e => rw [CreateK8sObjects_error_containers parse app e hr]
    | ok objs => exact hok objs hr
  · intro objs h
    obtain ⟨cs, _, _, h3⟩ := CreateK8sObjects_ok_inv parse app objs h
    obtain ⟨_, _, hd⟩ := deployment_of_output parse app objs h
    constructor
    · rw [h3]
      simp [configMapObjects, hcd]
    · intro d hdm
      rw [hd d hdm]
      exact hok objs h

theorem CreateK8sObjects_env_kept_witness :
    lenMap exampleShared.ConfigData > 0 ∧ exampleShared.PodSpec.Containers.length > 1 ∧
      (∃ objs : List (Object Nat), (CreateK8sObjects sampleParse exampleShared).2 = .ok objs) ∧
      (CreateK8sObjects sampleParse exampleShared).1.PodSpec.Containers.map (fun c => c.Env) =
        exampleShared.PodSpec.Containers.map (fun c => c.Env) ∧
      ∀ objs, (CreateK8sObjects sampleParse exampleShared).2 = .ok objs →
        Object.ConfigMap
          { ObjectMeta := { Name := exampleShared.Name }, Data := exampleShared.ConfigData } ∈
            objs ∧
        ∀ d, Object.Deployment d ∈ objs →
          d.Spec.Template.Spec.Containers.map (fun c => c.Env) =
            exampleShared.PodSpec.Containers.map (fun c => c.Env) :=
  ⟨by decide, by decide, ⟨_, rfl⟩,
    CreateK8sObjects_env_kept sampleParse exampleShared (by decide) (Or.inl (by decide))⟩

/-! ## Failure -/

/-- C8: `CreateK8sObjects` returns an error, and so no object list, if and only
if the size string resolved for some volume mount (the size of the first
declared intent of that name, or "100Mi" when that size is empty or no intent
is declared) does not parse; otherwise it returns a list. `Transform` passes
the error on, wrapped, whatever the scheme, and returns no list either. -/
theorem CreateK8sObjects_error_iff (parse : String → Except String Q) (app : spec.App) :
    ((∃ err, (CreateK8sObjects parse app).2 = .error err) ↔
        ∃ vm ∈ volumeMounts app, ∃ err,
          parse (resolvedSize app.PersistentVolumes vm.Name) = .error err) ∧
      ((∃ objs, (CreateK8sObjects parse app).2 = .ok objs) ↔
        ∀ vm ∈ volumeMounts app, ∃ q,
          parse (resolvedSize app.PersistentVolumes vm.Name) = .ok q) ∧
      ∀ (scheme : Scheme) (err : String), (CreateK8sObjects parse app).2 = .error err →
        (Transform parse scheme app).2 =
          .error (wrap err "failed to create Kubernetes objects") := by
  have hiff : (∃ err, (CreateK8sObjects parse app).2 = .error err) ↔
      ∃ vm ∈ volumeMounts app, ∃ err,
        parse (resolvedSize app.PersistentVolumes vm.Name) = .error err := by
    have h := claimsFor_error_iff parse app.PersistentVolumes (mountNames app)
    have hm : (∃ n ∈ mountNames app, ∃ err,
        parse (resolvedSize app.PersistentVolumes n) = .error err) ↔
        ∃ vm ∈ volumeMounts app, ∃ err,
          parse (resolvedSize app.PersistentVolumes vm.Name) = .error err := by
      simp [mountNames]
    rw [← hm, ← h]
    cases hc : claimsFor parse app.PersistentVolumes (mountNames app) with
    | error e =>
      rw [CreateK8sObjects_of_claimsFor_error parse app e hc]
      simp
    | ok cs =>
      rw [CreateK8sObjects_of_claimsFor_ok parse app cs hc]
      simp
  refine ⟨hiff, ?_, ?_⟩
  · constructor
    · rintro ⟨objs, h⟩ vm hvm
      cases hp : parse (resolvedSize app.PersistentVolumes vm.Name) with
      | ok q => exact ⟨q, rfl⟩
      | error e =>
        obtain ⟨err, herr⟩ := hiff.2 ⟨vm, hvm, e, hp⟩
        rw [h] at herr
        simp at herr
    · intro hall
      cases hr : (CreateK8sObjects parse app).2 with
      | ok objs => exact ⟨objs, rfl⟩
      | error e =>
        obtain ⟨vm, hvm, err, herr⟩ := hiff.1 ⟨e, hr⟩
        obtain ⟨q, hq⟩ := hall vm hvm
        rw [hq] at herr
        simp at herr
  · intro scheme err h
    unfold Transform
    rcases hr : CreateK8sObjects parse app with ⟨a, r⟩
    rw [hr] at h
    simp only at h
    subst h
    rfl

theorem CreateK8sObjects_error_iff_witness :
    (∃ vm ∈ volumeMounts exampleBadSize, ∃ err,
        sampleParse (resolvedSize exampleBadSize.PersistentVolumes vm.Name) = .error err) ∧
      (∃ err, (CreateK8sObjects sampleParse exampleBadSize).2 = .error err) ∧
      ∀ scheme : Scheme, (Transform sampleParse scheme exampleBadSize).2 =
        .error (wrap (wrap (wrap "unable to parse quantity" "could not read volume size")
          "cannot create pvc") "failed to create Kubernetes objects") :=
  ⟨⟨{ Name := "data" }, by decide, _, rfl⟩,
    (CreateK8sObjects_error_iff sampleParse exampleBadSize).1.2
      ⟨{ Name := "data" }, by decide, _, rfl⟩,
    fun scheme => (CreateK8sObjects_error_iff sampleParse exampleBadSize).2.2 scheme _ rfl⟩

/-! ## Access modes of a claim -/

/-- C10: for an intent whose size parses, `createPVC` returns a claim whose
access modes are, when the intent lists access-mode strings, those among them
that are `ReadWriteOnce`, `ReadOnlyMany` or `ReadWriteMany`, in the same order,
the other strings being dropped without error, and exactly `[ReadWriteOnce]`
when the intent lists none; a list of unrecognised strings only gives a claim
with no access mode. -/
theorem createPVC_accessModes (parse : String → Except String Q) (v : spec.Volume) (q : Q)
    (hq : parse (if v.Size = "" then "100Mi" else v.Size) = .ok q) :
    ∃ pvc, (createPVC parse v).2 = .ok pvc ∧
      pvc.Spec.AccessModes =
        (if v.AccessModes = [] then [ReadWriteOnce]
         else v.AccessModes.filter (fun mode =>
            decide (mode = "ReadWriteOnce" ∨ mode = "ReadOnlyMany" ∨ mode = "ReadWriteMany"))) ∧
      (v.AccessModes ≠ [] →
        (∀ mode ∈ v.AccessModes,
          mode ≠ "ReadWriteOnce" ∧ mode ≠ "ReadOnlyMany" ∧ mode ≠ "ReadWriteMany") →
        pvc.Spec.AccessModes = []) := by
  have hf : (fun mode : String =>
      decide (mode = "ReadWriteOnce" ∨ mode = "ReadOnlyMany" ∨ mode = "ReadWriteMany")) =
      isAccessMode := by
    funext mode
    simp [isAccessMode, Bool.decide_or, Bool.or_assoc]
  rw [createPVC_eq, hf]
  change parse (sizeOrDefault v) = .ok q at hq
  simp only [hq]
  refine ⟨_, rfl, ?_, ?_⟩
  · simp [claimOf, claimModes, ReadWriteOnce]
  · intro hne hall
    simp only [claimOf, claimModes, hne, if_false, List.filter_eq_nil_iff]
    intro mode hm
    obtain ⟨h1, h2, h3⟩ := hall mode hm
    simp [isAccessMode, h1, h2, h3]

theorem createPVC_accessModes_witness :
    ∃ pvc, (createPVC sampleParse
        { Volume := { Name := "data" }, Size := "1Gi",
          AccessModes := ["Shared", "ReadOnlyMany", "ReadWriteOnce", "rwx"] }).2 = .ok pvc ∧
      pvc.Spec.AccessModes = ["ReadOnlyMany", "ReadWriteOnce"] := by
  obtain ⟨pvc, h1, h2, _⟩ := createPVC_accessModes sampleParse
    { Volume := { Name := "data" }, Size := "1Gi",
      AccessModes := ["Shared", "ReadOnlyMany", "ReadWriteOnce", "rwx"] } 1073741824 rfl
  exact ⟨pvc, h1, by rw [h2]; decide⟩

/-! ## Claims and intents of the volume mounts -/

/-- C9 does not hold: the mount `cache` matches no declared intent, but the
size of the intent declared for the mount before it does not parse, so the run
fails: no claim is produced and no intent named `cache` is added to the model. -/
theorem undeclared_mount_without_claim :
    ({ Name := "cache" } : VolumeMount) ∈ volumeMounts exampleBadSize ∧
      findIntent "cache" exampleBadSize.PersistentVolumes = none ∧
      (∃ err, (CreateK8sObjects sampleParse exampleBadSize).2 = .error err) ∧
      ∀ v ∈ (CreateK8sObjects sampleParse exampleBadSize).1.PersistentVolumes,
        v.Volume.Name ≠ "cache" :=
  ⟨by decide, by decide, ⟨_, rfl⟩, by decide⟩

/-- C9, amended: when `CreateK8sObjects` succeeds, the claim of a volume mount
whose name matches no declared intent is named after the mount, requests the
storage "100Mi" and has the access modes `[ReadWriteOnce]`, and the default
intent of that name is among the intents appended to the model; the claim of a
mount whose name matches a declared intent is made from the first such intent
(its size, "100Mi" standing for an empty one, and the access modes `createPVC`
derives from its access-mode strings), and no intent of that name is appended.
The declared intents keep their places and names, and exactly one intent is
appended per distinct undeclared mount name. -/
theorem CreateK8sObjects_claims_and_intents (parse : String → Except String Q)
    (app : spec.App) (objs : List (Object Q))
    (h : (CreateK8sObjects parse app).2 = .ok objs) :
    (∀ (k : Nat) (vm : VolumeMount), (volumeMounts app)[k]? = some vm →
      (findIntent vm.Name app.PersistentVolumes = none →
        ∃ q, parse "100Mi" = .ok q ∧
          (pvcsOf objs)[k]? = some
            { ObjectMeta := { Name := vm.Name },
              Spec := { AccessModes := [ReadWriteOnce],
                        Resources := { Requests := [(ResourceStorage, q)] } } } ∧
          defaultIntent vm.Name ∈
            (CreateK8sObjects parse app).1.PersistentVolumes.drop
              app.PersistentVolumes.length) ∧
      (∀ v, findIntent vm.Name app.PersistentVolumes = some v →
        ∃ q, parse (if v.Size = "" then "100Mi" else v.Size) = .ok q ∧
          (pvcsOf objs)[k]? = some
            { ObjectMeta := { Name := vm.Name },
              Spec := { AccessModes := claimModes v.AccessModes,
                        Resources := { Requests := [(ResourceStorage, q)] } } } ∧
          ∀ w ∈ (CreateK8sObjects parse app).1.PersistentVolumes.drop
              app.PersistentVolumes.length, w.Volume.Name ≠ vm.Name)) ∧
      ((CreateK8sObjects parse app).1.PersistentVolumes.take app.PersistentVolumes.length).map
          (fun v => v.Volume.Name) = app.PersistentVolumes.map (fun v => v.Volume.Name) ∧
      (((CreateK8sObjects parse app).1.PersistentVolumes.drop app.PersistentVolumes.length).map
          (fun v => v.Volume.Name)).Nodup ∧
      ∀ w ∈ (CreateK8sObjects parse app).1.PersistentVolumes.drop app.PersistentVolumes.length,
        ∃ vm ∈ volumeMounts app, findIntent vm.Name app.PersistentVolumes = none ∧
          w = defaultIntent vm.Name := by
  have h1 := pvcsOf_CreateK8sObjects parse app objs h
  obtain ⟨_, hget⟩ := claimsFor_ok parse _ _ _ h1
  obtain ⟨cs, _, h2, _⟩ := CreateK8sObjects_ok_inv parse app objs h
  have hpv : (CreateK8sObjects parse app).1.PersistentVolumes =
      (mountNames app).foldl (fun pvs n => touchIntents n pvs) app.PersistentVolumes := by
    rw [h2]
    exact (final_frame app).2.2.2.2.2.2
  obtain ⟨d1, d2, d3⟩ := drop_foldl_touchIntents app.PersistentVolumes (mountNames app)
  rw [← hpv] at d1 d2 d3
  refine ⟨?_, d1, d2, ?_⟩
  · intro k vm hk
    have hn : (mountNames app)[k]? = some vm.Name := by
      simp [mountNames, List.getElem?_map, hk]
    have hmem : vm.Name ∈ mountNames app := List.mem_iff_getElem?.2 ⟨k, hn⟩
    obtain ⟨c, hc1, hc2⟩ := hget k vm.Name hn
    constructor
    · intro hf
      simp only [claimFor, resolvedSize, resolvedModes, hf] at hc2
      cases hp : parse "100Mi" with
      | error e => simp [hp] at hc2
      | ok q =>
        simp only [hp, Except.ok.injEq] at hc2
        subst hc2
        refine ⟨q, rfl, ?_, ?_⟩
        · rw [hc1]
          simp [claimOf, claimModes, isAccessMode, ReadWriteOnce, ResourceStorage]
        · exact (d3 _).2 ⟨vm.Name, hmem, (findIntent_eq_none_iff _ _).1 hf, rfl⟩
    · intro v hf
      simp only [claimFor, resolvedSize, resolvedModes, hf] at hc2
      change (match parse (sizeOrDefault v) with
        | .error err => _
        | .ok size => _) = _ at hc2
      change ∃ q, parse (sizeOrDefault v) = .ok q ∧ _
      cases hp : parse (sizeOrDefault v) with
      | error e => simp [hp] at hc2
      | ok q =>
        simp only [hp, Except.ok.injEq] at hc2
        subst hc2
        refine ⟨q, rfl, ?_, ?_⟩
        · rw [hc1]
          simp [claimOf, ResourceStorage]
        · intro w hw hname
          obtain ⟨n, _, hn2, hw2⟩ := (d3 w).1 hw
          have hn3 : n = vm.Name := by
            rw [hw2] at hname
            exact hname
          have hnone := (findIntent_eq_none_iff n app.PersistentVolumes).2 hn2
          rw [hn3, hf] at hnone
          simp at hnone
  · intro w hw
    obtain ⟨n, hn1, hn2, hw2⟩ := (d3 w).1 hw
    obtain ⟨vm, hvm, rfl⟩ := List.mem_map.1 hn1
    exact ⟨vm, hvm, (findIntent_eq_none_iff _ _).2 hn2, hw2⟩

theorem CreateK8sObjects_claims_and_intents_witness :
    ∃ objs : List (Object Nat), (CreateK8sObjects sampleParse exampleShop).2 = .ok objs ∧
      ∃ q, sampleParse "100Mi" = .ok q ∧
        (pvcsOf objs)[1]? = some
          { ObjectMeta := { Name := "cache" },
            Spec := { AccessModes := [ReadWriteOnce],
                      Resources := { Requests := [(ResourceStorage, q)] } } } ∧
        defaultIntent "cache" ∈
          (CreateK8sObjects sampleParse exampleShop).1.PersistentVolumes.drop
            exampleShop.PersistentVolumes.length :=
  ⟨_, rfl, ((CreateK8sObjects_claims_and_intents sampleParse exampleShop _ rfl).1 1
      { Name := "cache" } rfl).1 (by decide)⟩

/-! ## Lemmas on the loop of `createServices` -/

theorem createServicesBody_append (app : spec.App) (svcs : List (Object Q))
    (s : spec.ServiceSpec) :
    createServicesBody app svcs s = svcs ++ intentObjects app s := by
  unfold intentObjects createServicesBody
  simp only
  split_ifs
  all_goals try split
  all_goals simp

theorem foldl_createServicesBody (app : spec.App) (ss : List spec.ServiceSpec)
    (svcs : List (Object Q)) :
    ss.foldl (createServicesBody app) svcs = svcs ++ ss.flatMap (intentObjects app) := by
  induction ss generalizing svcs with
  | nil => simp
  | cons s ss ih =>
    rw [List.foldl_cons, ih, createServicesBody_append]
    simp

/-- The list of `createServices` is made of the objects of the intents, one
intent after the other. -/
theorem createServices_eq_flatMap (app : spec.App) :
    (createServices app : List (Object Q)) = app.Services.flatMap (intentObjects app) := by
  unfold createServices
  rw [foldl_createServicesBody]
  rfl

theorem createServices_split (app : spec.App) (before after : List spec.ServiceSpec)
    (s : spec.ServiceSpec) (h : app.Services = before ++ s :: after) :
    (createServices app : List (Object Q)) =
      before.flatMap (intentObjects app) ++ intentObjects app s ++
        after.flatMap (intentObjects app) := by
  rw [createServices_eq_flatMap, h]
  simp

/-- The objects of an intent with exactly one rule and one port. -/
theorem intentObjects_one_one (app : spec.App) (s : spec.ServiceSpec)
    (rule0 : ext_v1beta1.IngressRule) (port0 : ServicePort)
    (hT : s.ServiceSpec.Type_ = ServiceTypeLoadBalancer)
    (hR : s.Rules = [rule0]) (hP : s.ServiceSpec.Ports = [port0]) :
    (intentObjects app s : List (Object Q)) =
      [Object.Service (serviceOf app s),
       Object.Ingress
        { ObjectMeta := { Name := s.Name, Labels := app.Labels },
          Spec := { Rules := [{
            Host := rule0.Host,
            IngressRuleValue :=
              { HTTP := some (rule0.IngressRuleValue.HTTP.getD (rootPathHTTP s port0)) } }] } }] := by
  unfold intentObjects createServicesBody serviceOf rootPathHTTP
  cases hh : rule0.IngressRuleValue.HTTP <;>
    by_cases hsel : lenMap s.ServiceSpec.Selector = 0 <;>
    simp [hT, hR, hP, hh, hsel]

/-- The objects of an intent with more than one rule. -/
theorem intentObjects_many_rules (app : spec.App) (s : spec.ServiceSpec)
    (hT : s.ServiceSpec.Type_ = ServiceTypeLoadBalancer) (hR : s.Rules.length > 1) :
    (intentObjects app s : List (Object Q)) =
      [Object.Service (serviceOf app s),
       Object.Ingress
        { ObjectMeta := { Name := s.Name, Labels := app.Labels }, Spec := s.IngressSpec }] := by
  have h1 : ¬ (s.Rules.length = 1) := by omega
  unfold intentObjects createServicesBody serviceOf
  by_cases hsel : lenMap s.ServiceSpec.Selector = 0 <;>
    simp [hT, hR, h1, hsel]

/-- The objects of an intent in every other case: the Service alone. -/
theorem intentObjects_service_only (app : spec.App) (s : spec.ServiceSpec)
    (h : ¬ hasIngress s) :
    (intentObjects app s : List (Object Q)) = [Object.Service (serviceOf app s)] := by
  unfold hasIngress at h
  unfold intentObjects createServicesBody serviceOf
  by_cases hT : s.ServiceSpec.Type_ = ServiceTypeLoadBalancer
  · have h1 : ¬ (s.Rules.length = 1 ∧ s.ServiceSpec.Ports.length = 1) := fun hc => h ⟨hT, Or.inl hc⟩
    have h2 : ¬ (s.Rules.length > 1) := fun hc => h ⟨hT, Or.inr hc⟩
    simp only [if_pos hT, if_neg h1, if_neg h2]
    split_ifs <;> simp
  · by_cases hsel : lenMap s.ServiceSpec.Selector = 0 <;> simp [hT, hsel]

/-- The objects of an intent: its Service, then its Ingress in the two cases
that have one. -/
theorem intentObjects_shape (app : spec.App) (s : spec.ServiceSpec) :
    ∃ rest : List (Object Q), intentObjects app s = Object.Service (serviceOf app s) :: rest ∧
      (hasIngress s → ∃ ing : ext_v1beta1.Ingress, rest = [Object.Ingress ing] ∧
        ing.ObjectMeta = { Name := s.Name, Labels := app.Labels }) ∧
      (¬ hasIngress s → rest = []) := by
  by_cases hc : hasIngress s
  · obtain ⟨hT, hcase⟩ := hc
    by_cases hR : s.Rules.length > 1
    · exact ⟨_, intentObjects_many_rules app s hT hR, fun _ => ⟨_, rfl, rfl⟩,
        fun hn => absurd ⟨hT, hcase⟩ hn⟩
    · have h11 : s.Rules.length = 1 ∧ s.ServiceSpec.Ports.length = 1 := by
        rcases hcase with h | h
        · exact h
        · exact absurd h hR
      obtain ⟨rule0, hr⟩ := List.length_eq_one.1 h11.1
      obtain ⟨port0, hp⟩ := List.length_eq_one.1 h11.2
      exact ⟨_, intentObjects_one_one app s rule0 port0 hT hr hp, fun _ => ⟨_, rfl, rfl⟩,
        fun hn => absurd ⟨hT, hcase⟩ hn⟩
  · exact ⟨[], intentObjects_service_only app s hc, fun h => absurd h hc, fun _ => rfl⟩

theorem servicesOf_intentObjects (app : spec.App) (s : spec.ServiceSpec) :
    servicesOf (intentObjects app s : List (Object Q)) = [serviceOf app s] := by
  obtain ⟨rest, h1, h2, h3⟩ := intentObjects_shape (Q := Q) app s
  rw [h1]
  by_cases hc : hasIngress s
  · obtain ⟨ing, hr, _⟩ := h2 hc
    rw [hr]
    rfl
  · rw [h3 hc]
    rfl

theorem servicesOf_append (xs ys : List (Object Q)) :
    servicesOf (xs ++ ys) = servicesOf xs ++ servicesOf ys := by
  simp [servicesOf, List.filterMap_append]

theorem servicesOf_createServices (app : spec.App) :
    servicesOf (createServices app : List (Object Q)) = app.Services.map (serviceOf app) := by
  rw [createServices_eq_flatMap]
  induction app.Services with
  | nil => rfl
  | cons s ss ih =>
    rw [List.flatMap_cons, servicesOf_append, servicesOf_intentObjects, ih]
    rfl

theorem CreateK8sObjects_ok_of_sizes (parse : String → Except String Q) (app : spec.App)
    (hall : ∀ vm ∈ volumeMounts app, ∃ q,
      parse (resolvedSize app.PersistentVolumes vm.Name) = .ok q) :
    ∃ objs, (CreateK8sObjects parse app).2 = .ok objs := by
  cases hc : claimsFor parse app.PersistentVolumes (mountNames app) with
  | ok cs =>
    rw [CreateK8sObjects_of_claimsFor_ok parse app cs hc]
    exact ⟨_, rfl⟩
  | error e =>
    obtain ⟨n, hn, err, herr⟩ :=
      (claimsFor_error_iff parse app.PersistentVolumes (mountNames app)).1 ⟨e, hc⟩
    obtain ⟨vm, hvm, rfl⟩ := List.mem_map.1 hn
    obtain ⟨q, hq⟩ := hall vm hvm
    rw [hq] at herr
    simp at herr

theorem createServices_subset_output (parse : String → Except String Q) (app : spec.App)
    (objs : List (Object Q)) (h : (CreateK8sObjects parse app).2 = .ok objs) :
    ∀ o ∈ (createServices (withLabels app) : List (Object Q)), o ∈ objs := by
  obtain ⟨cs, _, _, h3⟩ := CreateK8sObjects_ok_inv parse app objs h
  intro o ho
  rw [h3]
  simp [ho]

/-! ## Services and Ingresses -/

/-- C11: for a load-balanced intent with exactly one rule and exactly one port,
`createServices` emits the Service followed by exactly one Ingress, named after
the intent, with a single rule bound to the host of that rule; without explicit
HTTP routing in the rule the HTTP value is the single path `/` to the service
of the intent at its only port, and explicit HTTP routing is used unchanged. -/
theorem createServices_one_rule_one_port (app : spec.App) (s : spec.ServiceSpec)
    (hT : s.ServiceSpec.Type_ = ServiceTypeLoadBalancer)
    (hR : s.Rules.length = 1) (hP : s.ServiceSpec.Ports.length = 1) :
    ∃ (rule0 : ext_v1beta1.IngressRule) (port0 : ServicePort) (ing : ext_v1beta1.Ingress)
      (http : ext_v1beta1.HTTPIngressRuleValue),
      s.Rules = [rule0] ∧ s.ServiceSpec.Ports = [port0] ∧
      (intentObjects app s : List (Object Q)) =
        [Object.Service (serviceOf app s), Object.Ingress ing] ∧
      (∀ before after, app.Services = before ++ s :: after →
        (createServices app : List (Object Q)) =
          before.flatMap (intentObjects app) ++
            [Object.Service (serviceOf app s), Object.Ingress ing] ++
            after.flatMap (intentObjects app)) ∧
      ing.ObjectMeta.Name = s.Name ∧
      ing.Spec.Rules = [{ Host := rule0.Host, IngressRuleValue := { HTTP := some http } }] ∧
      (rule0.IngressRuleValue.HTTP = none →
        http = { Paths := [{ Path := "/",
                             Backend := { ServiceName := s.Name,
                                          ServicePort := intstr.IntOrString.int port0.Port } }] }) ∧
      ∀ given, rule0.IngressRuleValue.HTTP = some given → http = given := by
  obtain ⟨rule0, hr⟩ := List.length_eq_one.1 hR
  obtain ⟨port0, hp⟩ := List.length_eq_one.1 hP
  have h1 := intentObjects_one_one (Q := Q) app s rule0 port0 hT hr hp
  refine ⟨rule0, port0, _, rule0.IngressRuleValue.HTTP.getD (rootPathHTTP s port0), hr, hp, h1,
    ?_, rfl, rfl, ?_, ?_⟩
  · intro before after hs
    rw [createServices_split app before after s hs, h1]
  · intro hn
    rw [hn]
    rfl
  · intro given hg
    rw [hg]
    rfl

theorem createServices_one_rule_one_port_witness :
    ∃ (rule0 : ext_v1beta1.IngressRule) (port0 : ServicePort) (ing : ext_v1beta1.Ingress)
      (http : ext_v1beta1.HTTPIngressRuleValue),
      exampleFront.Rules = [rule0] ∧ exampleFront.ServiceSpec.Ports = [port0] ∧
      (intentObjects exampleShop exampleFront : List (Object Nat)) =
        [Object.Service (serviceOf exampleShop exampleFront), Object.Ingress ing] ∧
      (∀ before after, exampleShop.Services = before ++ exampleFront :: after →
        (createServices exampleShop : List (Object Nat)) =
          before.flatMap (intentObjects exampleShop) ++
            [Object.Service (serviceOf exampleShop exampleFront), Object.Ingress ing] ++
            after.flatMap (intentObjects exampleShop)) ∧
      ing.ObjectMeta.Name = exampleFront.Name ∧
      ing.Spec.Rules = [{ Host := rule0.Host, IngressRuleValue := { HTTP := some http } }] ∧
      (rule0.IngressRuleValue.HTTP = none →
        http = { Paths := [{ Path := "/",
                             Backend := { ServiceName := exampleFront.Name,
                                          ServicePort := intstr.IntOrString.int port0.Port } }] }) ∧
      ∀ given, rule0.IngressRuleValue.HTTP = some given → http = given :=
  createServices_one_rule_one_port exampleShop exampleFront rfl rfl rfl

/-- C12: for a load-balanced intent with exactly one rule and more than one
port, in particular one without explicit HTTP routing, `createServices` emits
the Service of the intent and no Ingress for it; the synthesis does not fail
for it: `CreateK8sObjects` returns a list, with this Service in it, whenever
the sizes of the volume mounts parse. -/
theorem createServices_one_rule_many_ports (app : spec.App) (s : spec.ServiceSpec)
    (_hT : s.ServiceSpec.Type_ = ServiceTypeLoadBalancer)
    (hR : s.Rules.length = 1) (hP : s.ServiceSpec.Ports.length > 1)
    (_hH : ∀ rule ∈ s.Rules, rule.IngressRuleValue.HTTP = none) :
    (intentObjects app s : List (Object Q)) = [Object.Service (serviceOf app s)] ∧
      (∀ before after, app.Services = before ++ s :: after →
        (createServices app : List (Object Q)) =
          before.flatMap (intentObjects app) ++ [Object.Service (serviceOf app s)] ++
            after.flatMap (intentObjects app)) ∧
      ∀ parse : String → Except String Q, s ∈ app.Services →
        (∀ vm ∈ volumeMounts app, ∃ q,
          parse (resolvedSize app.PersistentVolumes vm.Name) = .ok q) →
        ∃ objs, (CreateK8sObjects parse app).2 = .ok objs ∧
          Object.Service (serviceOf (withLabels app) s) ∈ objs := by
  have hno : ¬ hasIngress s := by
    rintro ⟨_, h | h⟩
    · omega
    · omega
  have h1 : ∀ a : spec.App,
      (intentObjects a s : List (Object Q)) = [Object.Service (serviceOf a s)] :=
    fun a => intentObjects_service_only a s hno
  refine ⟨h1 app, ?_, ?_⟩
  · intro before after hs
    rw [createServices_split app before after s hs, h1]
  · intro parse hmem hall
    obtain ⟨objs, hobjs⟩ := CreateK8sObjects_ok_of_sizes parse app hall
    refine ⟨objs, hobjs, createServices_subset_output parse app objs hobjs _ ?_⟩
    rw [createServices_eq_flatMap, List.mem_flatMap]
    refine ⟨s, ?_, by rw [h1]; simp⟩
    rw [(withLabels_frame app).2.2.2.1]
    exact hmem

theorem createServices_one_rule_many_ports_witness :
    (intentObjects exampleGateway exampleTwoPorts : List (Object Nat)) =
        [Object.Service (serviceOf exampleGateway exampleTwoPorts)] ∧
      (∀ before after, exampleGateway.Services = before ++ exampleTwoPorts :: after →
        (createServices exampleGateway : List (Object Nat)) =
          before.flatMap (intentObjects exampleGateway) ++
            [Object.Service (serviceOf exampleGateway exampleTwoPorts)] ++
            after.flatMap (intentObjects exampleGateway)) ∧
      ∀ parse : String → Except String Nat, exampleTwoPorts ∈ exampleGateway.Services →
        (∀ vm ∈ volumeMounts exampleGateway, ∃ q,
          parse (resolvedSize exampleGateway.PersistentVolumes vm.Name) = .ok q) →
        ∃ objs, (CreateK8sObjects parse exampleGateway).2 = .ok objs ∧
          Object.Service (serviceOf (withLabels exampleGateway) exampleTwoPorts) ∈ objs :=
  createServices_one_rule_many_ports exampleGateway exampleTwoPorts rfl rfl (by decide)
    (by decide)

/-- C13: for a load-balanced intent with more than one rule, whatever the
number of its ports, `createServices` emits the Service followed by exactly one
Ingress, named after the intent, whose spec is the `IngressSpec` of the intent
as it is. -/
theorem createServices_many_rules (app : spec.App) (s : spec.ServiceSpec)
    (hT : s.ServiceSpec.Type_ = ServiceTypeLoadBalancer) (hR : s.Rules.length > 1) :
    (intentObjects app s : List (Object Q)) =
        [Object.Service (serviceOf app s),
         Object.Ingress
          { ObjectMeta := { Name := s.Name, Labels := app.Labels }, Spec := s.IngressSpec }] ∧
      ∀ before after, app.Services = before ++ s :: after →
        (createServices app : List (Object Q)) =
          before.flatMap (intentObjects app) ++
            [Object.Service (serviceOf app s),
             Object.Ingress
              { ObjectMeta := { Name := s.Name, Labels := app.Labels },
                Spec := s.IngressSpec }] ++
            after.flatMap (intentObjects app) := by
  have h1 := intentObjects_many_rules (Q := Q) app s hT hR
  refine ⟨h1, ?_⟩
  intro before after hs
  rw [createServices_split app before after s hs, h1]

theorem createServices_many_rules_witness :
    (intentObjects exampleGateway exampleTwoRules : List (Object Nat)) =
        [Object.Service (serviceOf exampleGateway exampleTwoRules),
         Object.Ingress
          { ObjectMeta := { Name := exampleTwoRules.Name, Labels := exampleGateway.Labels },
            Spec := exampleTwoRules.IngressSpec }] ∧
      ∀ before after, exampleGateway.Services = before ++ exampleTwoRules :: after →
        (createServices exampleGateway : List (Object Nat)) =
          before.flatMap (intentObjects exampleGateway) ++
            [Object.Service (serviceOf exampleGateway exampleTwoRules),
             Object.Ingress
              { ObjectMeta := { Name := exampleTwoRules.Name, Labels := exampleGateway.Labels },
                Spec := exampleTwoRules.IngressSpec }] ++
            after.flatMap (intentObjects exampleGateway) :=
  createServices_many_rules exampleGateway exampleTwoRules rfl (by decide)

/-- C14: `createServices` emits, for every intent and in the order of the
intents, one Service named after the intent, with the labels of the application
and with the service specification of the intent, except that an empty selector
is replaced by the labels of the application; a selector that is not empty is
kept. -/
theorem createServices_services (app : spec.App) :
    servicesOf (createServices app : List (Object Q)) =
        app.Services.map (fun s =>
          { ObjectMeta := { Name := s.Name, Labels := app.Labels },
            Spec := if lenMap s.ServiceSpec.Selector = 0 then
                { s.ServiceSpec with Selector := app.Labels }
              else s.ServiceSpec }) ∧
      (createServices app : List (Object Q)) = app.Services.flatMap (intentObjects app) ∧
      ∀ s : spec.ServiceSpec,
        (∃ rest, (intentObjects app s : List (Object Q)) =
          Object.Service (serviceOf app s) :: rest ∧ servicesOf rest = []) ∧
        (serviceOf app s).ObjectMeta.Name = s.Name ∧
        (lenMap s.ServiceSpec.Selector = 0 →
          (serviceOf app s).Spec = { s.ServiceSpec with Selector := app.Labels }) ∧
        (lenMap s.ServiceSpec.Selector ≠ 0 → (serviceOf app s).Spec = s.ServiceSpec) := by
  refine ⟨servicesOf_createServices app, createServices_eq_flatMap app, ?_⟩
  intro s
  refine ⟨?_, rfl, ?_, ?_⟩
  · obtain ⟨rest, h1, _⟩ := intentObjects_shape (Q := Q) app s
    refine ⟨rest, h1, ?_⟩
    have h2 := servicesOf_intentObjects (Q := Q) app s
    rw [h1] at h2
    simpa [servicesOf] using h2
  · intro h
    simp [serviceOf, h]
  · intro h
    simp [serviceOf, h]

theorem createServices_services_witness :
    servicesOf (createServices exampleGateway : List (Object Nat)) =
      [{ ObjectMeta := { Name := "api", Labels := some [("team", "edge")] },
         Spec := { Type_ := "LoadBalancer", Ports := [{ Port := 80 }, { Port := 443 }],
                   Selector := some [("team", "edge")] } },
       { ObjectMeta := { Name := "site", Labels := some [("team", "edge")] },
         Spec := { Type_ := "LoadBalancer", Ports := [{ Port := 80 }],
                   Selector := some [("tier", "front")] } },
       { ObjectMeta := { Name := "internal", Labels := some [("team", "edge")] },
         Spec := { Selector := some [("team", "edge")] } }] :=
  (createServices_services exampleGateway).1.trans (by decide)

/-- C20: for every intent `createServices` emits exactly one Service,
immediately followed by at most one Ingress, and the Ingress is there if and
only if the intent is load-balanced and has either exactly one rule and exactly
one port, or more than one rule. So an intent that is not load-balanced, or has
no rule, or has one rule and no port, or has one rule and several ports (with
or without explicit HTTP routing) gives no Ingress. -/
theorem createServices_ingress_iff (app : spec.App) (s : spec.ServiceSpec) :
    ∃ rest : List (Object Q),
      intentObjects app s = Object.Service (serviceOf app s) :: rest ∧
      (∀ before after, app.Services = before ++ s :: after →
        (createServices app : List (Object Q)) =
          before.flatMap (intentObjects app) ++ Object.Service (serviceOf app s) :: rest ++
            after.flatMap (intentObjects app)) ∧
      rest.length ≤ 1 ∧
      (∀ o ∈ rest, goType o = GoType.Ingress) ∧
      (rest ≠ [] ↔
        s.ServiceSpec.Type_ = ServiceTypeLoadBalancer ∧
          ((s.Rules.length = 1 ∧ s.ServiceSpec.Ports.length = 1) ∨ s.Rules.length > 1)) ∧
      (s.ServiceSpec.Type_ ≠ ServiceTypeLoadBalancer → rest = []) ∧
      (s.Rules.length = 0 → rest = []) ∧
      (s.Rules.length = 1 → s.ServiceSpec.Ports.length = 0 → rest = []) ∧
      (s.Rules.length = 1 → s.ServiceSpec.Ports.length > 1 → rest = []) := by
  obtain ⟨rest, h1, h2, h3⟩ := intentObjects_shape (Q := Q) app s
  have hiff : rest ≠ [] ↔ hasIngress s := by
    constructor
    · intro hne
      by_contra hc
      exact hne (h3 hc)
    · intro hc
      obtain ⟨ing, hr, _⟩ := h2 hc
      rw [hr]
      simp
  have hnil : ¬ hasIngress s → rest = [] := h3
  refine ⟨rest, h1, ?_, ?_, ?_, hiff, ?_, ?_, ?_, ?_⟩
  · intro before after hs
    rw [createServices_split app before after s hs, h1]
  · by_cases hc : hasIngress s
    · obtain ⟨ing, hr, _⟩ := h2 hc
      rw [hr]
      simp
    · rw [h3 hc]
      simp
  · intro o ho
    by_cases hc : hasIngress s
    · obtain ⟨ing, hr, _⟩ := h2 hc
      rw [hr] at ho
      simp only [List.mem_singleton] at ho
      rw [ho]
      rfl
    · rw [h3 hc] at ho
      simp at ho
  · intro hT
    exact hnil (fun hc => hT hc.1)
  · intro h0
    apply hnil
    rintro ⟨_, h | h⟩ <;> omega
  · intro hr hp
    apply hnil
    rintro ⟨_, h | h⟩ <;> omega
  · intro hr hp
    apply hnil
    rintro ⟨_, h | h⟩ <;> omega

theorem createServices_ingress_iff_witness :
    (intentObjects exampleGateway exampleTwoPorts : List (Object Nat)).length = 1 ∧
      (intentObjects exampleGateway exampleTwoRules : List (Object Nat)).length = 2 := by
  obtain ⟨rest1, h1, _, _, _, _, _, _, _, h9⟩ :=
    createServices_ingress_iff (Q := Nat) exampleGateway exampleTwoPorts
  obtain ⟨rest2, g1, _, g3, _, g5, _⟩ :=
    createServices_ingress_iff (Q := Nat) exampleGateway exampleTwoRules
  have e1 : rest1 = [] := h9 rfl (by decide)
  have e2 : rest2 ≠ [] := g5.2 ⟨rfl, Or.inr (by decide)⟩
  rw [h1, g1, e1]
  refine ⟨rfl, ?_⟩
  cases rest2 with
  | nil => exact absurd rfl e2
  | cons o os =>
    simp only [List.length_cons] at g3 ⊢
    omega

/-! ## Lemmas on the stamping loop of `Transform` -/

theorem goType_SetGroupVersionKind (gvk : GroupVersionKind) (o : Object Q) :
    goType (SetGroupVersionKind gvk o) = goType o := by
  cases o <;> rfl

theorem typeMeta_SetGroupVersionKind (gvk : GroupVersionKind) (o : Object Q) :
    typeMeta (SetGroupVersionKind gvk o) = ToAPIVersionAndKind gvk := by
  cases o <;> rfl

theorem SetGroupVersionKind_idem (gvk : GroupVersionKind) (o : Object Q) :
    SetGroupVersionKind gvk (SetGroupVersionKind gvk o) = SetGroupVersionKind gvk o := by
  cases o <;> rfl

theorem stamp_idem (gvkOf : GoType → GroupVersionKind) (o : Object Q) :
    stamp gvkOf (stamp gvkOf o) = stamp gvkOf o := by
  unfold stamp
  rw [goType_SetGroupVersionKind, SetGroupVersionKind_idem]

/-- The loop stamps every object when the scheme has a versioned
group/version/kind for every type. -/
theorem stampLoop_versioned (scheme : Scheme) (gvkOf : GoType → GroupVersionKind)
    (hs : ∀ t, scheme t = .ok (gvkOf t, false)) (objs : List (Object Q)) :
    stampLoop scheme objs = .ok (objs.map (stamp gvkOf)) := by
  induction objs with
  | nil => rfl
  | cons o os ih => simp [stampLoop, hs, ih, stamp]

/-- The loop fails exactly when the scheme has no versioned group/version/kind
for the type of some object. -/
theorem stampLoop_error_iff (scheme : Scheme) (objs : List (Object Q)) :
    (∃ err, stampLoop scheme objs = .error err) ↔
      ∃ o ∈ objs, unresolved scheme (goType o) := by
  induction objs with
  | nil => simp [stampLoop]
  | cons o os ih =>
    simp only [List.mem_cons, exists_eq_or_imp, ← ih]
    cases hsc : scheme (goType o) with
    | error e => simp [stampLoop, unresolved, hsc]
    | ok r =>
      obtain ⟨gvk, u⟩ := r
      cases u with
      | true => simp [stampLoop, unresolved, hsc]
      | false =>
        cases hrest : stampLoop scheme os with
        | error e => simp [stampLoop, unresolved, hsc, hrest]
        | ok rest => simp [stampLoop, unresolved, hsc, hrest]

theorem Transform_eq (parse : String → Except String Q) (scheme : Scheme) (app : spec.App) :
    (Transform parse scheme app).1 = (CreateK8sObjects parse app).1 ∧
      (Transform parse scheme app).2 =
        match (CreateK8sObjects parse app).2 with
        | .error err => .error (wrap err "failed to create Kubernetes objects")
        | .ok runtimeObjects => stampLoop scheme runtimeObjects := by
  unfold Transform
  rcases hr : CreateK8sObjects parse app with ⟨a, r⟩
  cases r <;> exact ⟨rfl, rfl⟩

/-! ## The stamping of the objects -/

/-- C17: for a model on which `CreateK8sObjects` succeeds and a scheme that
gives every one of the five types a versioned group/version/kind (with a kind
and a version), `Transform` returns the objects of `CreateK8sObjects` in the
same order, each with the kind and API version of its type in its type
metadata, both non-empty, and nothing else changed; the stamping loop applied
to the result returns the result unchanged. -/
theorem Transform_stamps (parse : String → Except String Q) (scheme : Scheme)
    (gvkOf : GoType → GroupVersionKind) (app : spec.App) (objs : List (Object Q))
    (hs : ∀ t, scheme t = .ok (gvkOf t, false))
    (hne : ∀ t, (gvkOf t).Kind ≠ "" ∧ (gvkOf t).Version ≠ "")
    (h : (CreateK8sObjects parse app).2 = .ok objs) :
    (Transform parse scheme app).2 =
        .ok (objs.map (fun o => SetGroupVersionKind (gvkOf (goType o)) o)) ∧
      (∀ o ∈ objs,
        goType (SetGroupVersionKind (gvkOf (goType o)) o) = goType o ∧
        SetGroupVersionKind { Group := "", Version := "", Kind := "" }
          (SetGroupVersionKind (gvkOf (goType o)) o) =
            SetGroupVersionKind { Group := "", Version := "", Kind := "" } o ∧
        typeMeta (SetGroupVersionKind (gvkOf (goType o)) o) =
          { Kind := (gvkOf (goType o)).Kind,
            APIVersion :=
              if (gvkOf (goType o)).Group = "" then (gvkOf (goType o)).Version
              else (gvkOf (goType o)).Group ++ "/" ++ (gvkOf (goType o)).Version } ∧
        (typeMeta (SetGroupVersionKind (gvkOf (goType o)) o)).Kind ≠ "" ∧
        (typeMeta (SetGroupVersionKind (gvkOf (goType o)) o)).APIVersion ≠ "") ∧
      stampLoop scheme (objs.map (fun o => SetGroupVersionKind (gvkOf (goType o)) o)) =
        .ok (objs.map (fun o => SetGroupVersionKind (gvkOf (goType o)) o)) := by
  have hT := (Transform_eq parse scheme app).2
  rw [h] at hT
  simp only at hT
  have hmeta : ∀ t : GoType, ToAPIVersionAndKind (gvkOf t) =
      { Kind := (gvkOf t).Kind,
        APIVersion := if (gvkOf t).Group = "" then (gvkOf t).Version
          else (gvkOf t).Group ++ "/" ++ (gvkOf t).Version } := by
    intro t
    unfold ToAPIVersionAndKind
    have hk := (hne t).1
    by_cases hg : (gvkOf t).Group = ""
    · simp [hg, hk]
    · simp [hg]
  refine ⟨?_, ?_, ?_⟩
  · rw [hT, stampLoop_versioned scheme gvkOf hs]
    rfl
  · intro o _
    refine ⟨goType_SetGroupVersionKind _ o, ?_, ?_, ?_, ?_⟩
    · cases o <;> rfl
    · rw [typeMeta_SetGroupVersionKind, hmeta]
    · rw [typeMeta_SetGroupVersionKind, hmeta]
      exact (hne _).1
    · rw [typeMeta_SetGroupVersionKind, hmeta]
      simp only
      split
      · exact (hne _).2
      · intro hcat
        have hlen := congrArg String.length hcat
        simp only [String.length_append] at hlen
        have h1 : "/".length = 1 := rfl
        have h0 : "".length = 0 := rfl
        omega
  · rw [stampLoop_versioned scheme gvkOf hs]
    congr 1
    rw [List.map_map]
    apply List.map_congr_left
    intro o _
    exact stamp_idem gvkOf o

theorem Transform_stamps_witness :
    (∀ t, sampleScheme t = .ok (sampleGVK t, false)) ∧
      (∀ t, (sampleGVK t).Kind ≠ "" ∧ (sampleGVK t).Version ≠ "") ∧
      ∃ objs : List (Object Nat), (CreateK8sObjects sampleParse exampleShop).2 = .ok objs ∧
        (Transform sampleParse sampleScheme exampleShop).2 =
          .ok (objs.map (fun o => SetGroupVersionKind (sampleGVK (goType o)) o)) ∧
        (objs.map (fun o => typeMeta (SetGroupVersionKind (sampleGVK (goType o)) o))) =
          [{ Kind := "Deployment", APIVersion := "extensions/v1beta1" },
           { Kind := "ConfigMap", APIVersion := "v1" },
           { Kind := "Service", APIVersion := "v1" },
           { Kind := "Ingress", APIVersion := "extensions/v1beta1" },
           { Kind := "PersistentVolumeClaim", APIVersion := "v1" },
           { Kind := "PersistentVolumeClaim", APIVersion := "v1" }] :=
  have hs : ∀ t, sampleScheme t = .ok (sampleGVK t, false) := fun _ => rfl
  have hne : ∀ t, (sampleGVK t).Kind ≠ "" ∧ (sampleGVK t).Version ≠ "" := by
    intro t
    cases t <;> decide
  ⟨hs, hne, _, rfl,
    (Transform_stamps sampleParse sampleScheme sampleGVK exampleShop _ hs hne rfl).1,
    by decide⟩

/-! ## Failure of `Transform` -/

/-- C18: `Transform` returns an error, and no object list, whenever the scheme
fails to resolve, or reports as unversioned, the type of an object in the list
of `CreateK8sObjects`; it fails if and only if `CreateK8sObjects` fails or
there is such an object, and otherwise it returns a list. -/
theorem Transform_error_iff (parse : String → Except String Q) (scheme : Scheme)
    (app : spec.App) :
    ((∃ err, (Transform parse scheme app).2 = .error err) ↔
        (∃ err, (CreateK8sObjects parse app).2 = .error err) ∨
          ∃ objs, (CreateK8sObjects parse app).2 = .ok objs ∧
            ∃ o ∈ objs, (∃ err, scheme (goType o) = .error err) ∨
              ∃ gvk, scheme (goType o) = .ok (gvk, true)) ∧
      ((∃ stamped, (Transform parse scheme app).2 = .ok stamped) ↔
        ∃ objs, (CreateK8sObjects parse app).2 = .ok objs ∧
          ∀ o ∈ objs, ∃ gvk, scheme (goType o) = .ok (gvk, false)) := by
  have hT := (Transform_eq parse scheme app).2
  have hiff : (∃ err, (Transform parse scheme app).2 = .error err) ↔
      (∃ err, (CreateK8sObjects parse app).2 = .error err) ∨
        ∃ objs, (CreateK8sObjects parse app).2 = .ok objs ∧
          ∃ o ∈ objs, (∃ err, scheme (goType o) = .error err) ∨
            ∃ gvk, scheme (goType o) = .ok (gvk, true) := by
    cases hr : (CreateK8sObjects parse app).2 with
    | error e =>
      rw [hr] at hT
      simp only at hT
      rw [hT]
      simp
    | ok objs =>
      rw [hr] at hT
      simp only at hT
      rw [hT, stampLoop_error_iff]
      simp [unresolved]
  refine ⟨hiff, ?_⟩
  constructor
  · rintro ⟨stamped, hst⟩
    cases hr : (CreateK8sObjects parse app).2 with
    | error e =>
      have := hiff.2 (Or.inl ⟨e, hr⟩)
      rw [hst] at this
      simp at this
    | ok objs =>
      refine ⟨objs, rfl, ?_⟩
      intro o ho
      cases hsc : scheme (goType o) with
      | error e =>
        have := hiff.2 (Or.inr ⟨objs, hr, o, ho, Or.inl ⟨e, hsc⟩⟩)
        rw [hst] at this
        simp at this
      | ok r =>
        obtain ⟨gvk, u⟩ := r
        cases u with
        | false => exact ⟨gvk, rfl⟩
        | true =>
          have := hiff.2 (Or.inr ⟨objs, hr, o, ho, Or.inr ⟨gvk, hsc⟩⟩)
          rw [hst] at this
          simp at this
  · rintro ⟨objs, hr, hall⟩
    cases hres : (Transform parse scheme app).2 with
    | ok stamped => exact ⟨stamped, rfl⟩
    | error e =>
      rcases hiff.1 ⟨e, hres⟩ with ⟨err, herr⟩ | ⟨objs2, hr2, o, ho, hbad⟩
      · rw [hr] at herr
        simp at herr
      · rw [hr] at hr2
        simp only [Except.ok.injEq] at hr2
        subst hr2
        obtain ⟨gvk, hg⟩ := hall o ho
        rcases hbad with ⟨err, herr⟩ | ⟨gvk2, hg2⟩
        · rw [hg] at herr
          simp at herr
        · rw [hg] at hg2
          simp at hg2

theorem Transform_error_iff_witness :
    (∃ objs : List (Object Nat), (CreateK8sObjects sampleParse exampleShop).2 = .ok objs ∧
        ∃ o ∈ objs, ∃ gvk, schemeWithoutConfigMap (goType o) = .ok (gvk, true)) ∧
      (Transform sampleParse schemeWithoutConfigMap exampleShop).2 =
        .error "ConvertToVersion failed: can't output unversioned type: *v1.ConfigMap" ∧
      ∃ err, (Transform sampleParse schemeWithoutConfigMap exampleShop).2 = .error err :=
  have hbad : ∃ objs : List (Object Nat),
      (CreateK8sObjects sampleParse exampleShop).2 = .ok objs ∧
        ∃ o ∈ objs, (∃ err, schemeWithoutConfigMap (goType o) = .error err) ∨
          ∃ gvk, schemeWithoutConfigMap (goType o) = .ok (gvk, true) :=
    ⟨_, rfl, Object.ConfigMap
      { ObjectMeta := { Name := "shop" }, Data := some [("MODE", "fast"), ("REGION", "eu")] },
      by decide, Or.inr ⟨_, rfl⟩⟩
  ⟨⟨_, rfl, Object.ConfigMap
      { ObjectMeta := { Name := "shop" }, Data := some [("MODE", "fast"), ("REGION", "eu")] },
      by decide, _, rfl⟩,
    rfl,
    (Transform_error_iff sampleParse schemeWithoutConfigMap exampleShop).1.2 (Or.inr hbad)⟩

/-! ## Lemmas on what `CreateK8sObjects` leaves in place -/

/-- On every path the run keeps the name, the replicas, the services and the
configuration data of the model, and its labels are the defaulted ones. -/
theorem CreateK8sObjects_frame (parse : String → Except String Q) (app : spec.App) :
    (CreateK8sObjects parse app).1.Name = app.Name ∧
      (CreateK8sObjects parse app).1.Labels = (withLabels app).Labels ∧
      (CreateK8sObjects parse app).1.Replicas = app.Replicas ∧
      (CreateK8sObjects parse app).1.Services = app.Services ∧
      (CreateK8sObjects parse app).1.ConfigData = app.ConfigData := by
  obtain ⟨c1, c2, c3, c4, _, _⟩ := withLabels_frame app
  rw [CreateK8sObjects_eq]
  obtain ⟨vols, pvs, hf⟩ := volumeMountsLoop_frame parse (withLabels app) [] (volumeMounts app)
  rcases hl : volumeMountsLoop parse (withLabels app) [] (volumeMounts app) with ⟨a, r⟩
  rw [hl] at hf
  simp only at hf
  cases r with
  | error e =>
    simp only
    rw [hf]
    exact ⟨c1, rfl, c3, c4, c2⟩
  | ok pvcs =>
    simp only
    obtain ⟨a1, a2, a3, a4, a5, _, _⟩ := withConfigMapEnv_frame (withContainerName a)
    obtain ⟨b1, b2, b3, b4, b5, _, _⟩ := withContainerName_frame a
    rw [a1, a2, a3, a4, a5, b1, b2, b3, b4, b5, hf]
    exact ⟨c1, rfl, c3, c4, c2⟩

theorem withConfigMapEnv_names (app : spec.App) :
    (withConfigMapEnv app).PodSpec.Containers.map (fun c => (c.Name, c.Image, c.VolumeMounts)) =
      app.PodSpec.Containers.map (fun c => (c.Name, c.Image, c.VolumeMounts)) := by
  unfold withConfigMapEnv
  split
  · split
    · rw [foldl_appendContainer0Env]
      cases app.PodSpec.Containers with
      | nil => rfl
      | cons c cs => rfl
    · rfl
  · rfl

theorem withContainerName_unnamed (app : spec.App) :
    ((∃ c, app.PodSpec.Containers = [c] ∧ c.Name = "") →
        (withContainerName app).PodSpec.Containers.map (fun c => c.Name) = [app.Name]) ∧
      ((¬ ∃ c, app.PodSpec.Containers = [c] ∧ c.Name = "") →
        (withContainerName app).PodSpec.Containers = app.PodSpec.Containers) := by
  constructor
  · rintro ⟨c, hc, hn⟩
    rw [(withContainerName_containers app).2.2 c hc]
    simp [hn]
  · intro hno
    unfold withContainerName
    split
    · rename_i hcond
      obtain ⟨hl, hname⟩ := hcond
      obtain ⟨c, hc⟩ := List.length_eq_one.1 hl
      rw [hc] at hname
      simp only [List.getElem?_cons_zero, Option.map_some', Option.some.injEq] at hname
      exact absurd ⟨c, hc, hname⟩ hno
    · rfl

/-- The names of the containers after a run that succeeded. -/
theorem final_container_names (app : spec.App) :
    ((∃ c, app.PodSpec.Containers = [c] ∧ c.Name = "") →
        (withConfigMapEnv (withContainerName (afterMounts app))).PodSpec.Containers.map
          (fun c => c.Name) = [app.Name]) ∧
      ((¬ ∃ c, app.PodSpec.Containers = [c] ∧ c.Name = "") →
        (withConfigMapEnv (withContainerName (afterMounts app))).PodSpec.Containers.map
          (fun c => c.Name) = app.PodSpec.Containers.map (fun c => c.Name)) := by
  have hn := withConfigMapEnv_names (withContainerName (afterMounts app))
  have hn2 : (withConfigMapEnv (withContainerName (afterMounts app))).PodSpec.Containers.map
      (fun c => c.Name) =
      (withContainerName (afterMounts app)).PodSpec.Containers.map (fun c => c.Name) := by
    have := congrArg (List.map (fun t : String × String × List VolumeMount => t.1)) hn
    simpa [List.map_map, Function.comp_def] using this
  have hcs : (afterMounts app).PodSpec.Containers = app.PodSpec.Containers := rfl
  have hname : (afterMounts app).Name = app.Name := (withLabels_frame app).1
  obtain ⟨u1, u2⟩ := withContainerName_unnamed (afterMounts app)
  rw [hcs, hname] at u1
  rw [hcs] at u2
  constructor
  · intro h
    rw [hn2, u1 h]
  · intro h
    rw [hn2, u2 h]

theorem deploymentsOf_output (parse : String → Except String Q) (app : spec.App)
    (objs : List (Object Q)) (h : (CreateK8sObjects parse app).2 = .ok objs) :
    deploymentsOf objs = [createDeployment (CreateK8sObjects parse app).1] := by
  obtain ⟨cs, _, _, h3⟩ := CreateK8sObjects_ok_inv parse app objs h
  have h1 : deploymentsOf (configMapObjects app : List (Object Q)) = [] := by
    unfold configMapObjects
    split <;> rfl
  have h2 : deploymentsOf (createServices (withLabels app) : List (Object Q)) = [] := by
    unfold deploymentsOf
    rw [List.filterMap_eq_nil_iff]
    intro o ho
    have hk := (createServices_spec (withLabels app) o ho).1
    cases o <;> simp [goType] at hk ⊢
  have h4 : deploymentsOf (cs.map Object.PersistentVolumeClaim : List (Object Q)) = [] := by
    unfold deploymentsOf
    rw [List.filterMap_eq_nil_iff]
    intro o ho
    obtain ⟨c, _, rfl⟩ := List.mem_map.1 ho
    rfl
  have happ : ∀ xs ys : List (Object Q),
      deploymentsOf (xs ++ ys) = deploymentsOf xs ++ deploymentsOf ys := by
    intro xs ys
    simp [deploymentsOf, List.filterMap_append]
  rw [h3, happ, happ, happ, h1, h2, h4]
  rfl

/-! ## The Deployment -/

/-- C15: when `CreateK8sObjects` succeeds, the output has exactly one
Deployment, at its head; its metadata carries the name of the model and the
labels of the model (the defaulted ones), its replicas are those of the model,
and the spec of its pod template is the pod specification of the model as it
stands on return: the declared volumes followed by one volume per volume
mount, bound to the claim named after the mount, in container and mount order. -/
theorem CreateK8sObjects_deployment (parse : String → Except String Q) (app : spec.App)
    (objs : List (Object Q)) (h : (CreateK8sObjects parse app).2 = .ok objs) :
    ∃ d rest, objs = Object.Deployment d :: rest ∧ deploymentsOf objs = [d] ∧
      d.ObjectMeta.Name = app.Name ∧
      d.ObjectMeta.Labels = (CreateK8sObjects parse app).1.Labels ∧
      (CreateK8sObjects parse app).1.Labels =
        (if app.Labels = none then some [("app", app.Name)] else app.Labels) ∧
      d.Spec.Replicas = app.Replicas ∧
      d.Spec.Template.ObjectMeta = d.ObjectMeta ∧
      d.Spec.Template.Spec = (CreateK8sObjects parse app).1.PodSpec ∧
      d.Spec.Template.Spec.Volumes =
        app.PodSpec.Volumes ++ (volumeMounts app).map (fun vm =>
          { Name := vm.Name,
            VolumeSource := { PersistentVolumeClaim := some { ClaimName := vm.Name } } }) := by
  obtain ⟨rest, h1, _⟩ := deployment_of_output parse app objs h
  obtain ⟨cs, _, h2, _⟩ := CreateK8sObjects_ok_inv parse app objs h
  obtain ⟨f1, f2, f3, _, _⟩ := CreateK8sObjects_frame parse app
  have hv : (CreateK8sObjects parse app).1.PodSpec.Volumes =
      app.PodSpec.Volumes ++ (mountNames app).map claimVolume := by
    rw [h2]
    exact (final_frame app).2.2.2.2.2.1
  have hl : (withLabels app).Labels =
      (if app.Labels = none then some [("app", app.Name)] else app.Labels) := by
    unfold withLabels getLabels
    split <;> rfl
  refine ⟨_, rest, h1, deploymentsOf_output parse app objs h, f1, rfl, by rw [f2, hl], f3,
    rfl, rfl, ?_⟩
  show (CreateK8sObjects parse app).1.PodSpec.Volumes = _
  rw [hv]
  simp [mountNames, claimVolume, Function.comp_def]

theorem CreateK8sObjects_deployment_witness :
    ∃ objs : List (Object Nat), (CreateK8sObjects sampleParse exampleShop).2 = .ok objs ∧
      ∃ d rest, objs = Object.Deployment d :: rest ∧ deploymentsOf objs = [d] ∧
        d.ObjectMeta.Name = exampleShop.Name ∧
        d.ObjectMeta.Labels = (CreateK8sObjects sampleParse exampleShop).1.Labels ∧
        (CreateK8sObjects sampleParse exampleShop).1.Labels =
          (if exampleShop.Labels = none then some [("app", exampleShop.Name)]
           else exampleShop.Labels) ∧
        d.Spec.Replicas = exampleShop.Replicas ∧
        d.Spec.Template.ObjectMeta = d.ObjectMeta ∧
        d.Spec.Template.Spec = (CreateK8sObjects sampleParse exampleShop).1.PodSpec ∧
        d.Spec.Template.Spec.Volumes =
          exampleShop.PodSpec.Volumes ++ (volumeMounts exampleShop).map (fun vm =>
            { Name := vm.Name,
              VolumeSource := { PersistentVolumeClaim := some { ClaimName := vm.Name } } }) :=
  ⟨_, rfl, CreateK8sObjects_deployment sampleParse exampleShop _ rfl⟩

/-! ## Running the engine twice -/

/-- C16: `CreateK8sObjects` is not idempotent on a model instance. For the
model with one container, one volume mount and no declared intent, and any
quantity parser that reads "100Mi", both runs succeed, the first leaves the pod
volume and the intent of the mount in the model, and the second, which starts
from that model, returns another list: its Deployment has the pod volume twice. -/
theorem CreateK8sObjects_not_idempotent (parse : String → Except String Q) (q : Q)
    (hq : parse "100Mi" = .ok q) :
    exampleWeb.PodSpec.Containers.length = 1 ∧ (volumeMounts exampleWeb).length = 1 ∧
      exampleWeb.PersistentVolumes = [] ∧
      ∃ objs1 objs2 : List (Object Q),
        (CreateK8sObjects parse exampleWeb).2 = .ok objs1 ∧
        (CreateK8sObjects parse (CreateK8sObjects parse exampleWeb).1).2 = .ok objs2 ∧
        objs1 ≠ objs2 ∧
        (CreateK8sObjects parse exampleWeb).1.PodSpec.Volumes = [claimVolume "data"] ∧
        (CreateK8sObjects parse exampleWeb).1.PersistentVolumes = [defaultIntent "data"] ∧
        (deploymentsOf objs1).map (fun d => d.Spec.Template.Spec.Volumes) =
          [[claimVolume "data"]] ∧
        (deploymentsOf objs2).map (fun d => d.Spec.Template.Spec.Volumes) =
          [[claimVolume "data", claimVolume "data"]] := by
  have hc1 : claimsFor parse exampleWeb.PersistentVolumes (mountNames exampleWeb) =
      .ok [claimOf "data" ["ReadWriteOnce"] q] := by
    have hm : mountNames exampleWeb = ["data"] := rfl
    have hp : exampleWeb.PersistentVolumes = [] := rfl
    rw [hm, hp]
    simp [claimsFor, claimFor, resolvedSize, resolvedModes, findIntent, hq, claimModes,
      isAccessMode]
  have hr1 := CreateK8sObjects_of_claimsFor_ok parse exampleWeb _ hc1
  have hfin1 : withConfigMapEnv (withContainerName (afterMounts exampleWeb)) =
      exampleWebAfter := by decide
  rw [hfin1] at hr1
  have hfst1 : (CreateK8sObjects parse exampleWeb).1 = exampleWebAfter := by rw [hr1]
  have hok1 := congrArg Prod.snd hr1
  simp only at hok1
  have hc2 : claimsFor parse exampleWebAfter.PersistentVolumes (mountNames exampleWebAfter) =
      .ok [claimOf "data" ["ReadWriteOnce"] q] := by
    have hm : mountNames exampleWebAfter = ["data"] := rfl
    have hp : exampleWebAfter.PersistentVolumes = [defaultIntent "data"] := rfl
    rw [hm, hp]
    simp [claimsFor, claimFor, resolvedSize, resolvedModes, findIntent, hq, claimModes,
      isAccessMode, defaultIntent, claimVolume, sizeOrDefault]
  have hr2 := CreateK8sObjects_of_claimsFor_ok parse exampleWebAfter _ hc2
  have hfin2 : withConfigMapEnv (withContainerName (afterMounts exampleWebAfter)) =
      exampleWebAfterTwice := by decide
  rw [hfin2] at hr2
  have hfst2 : (CreateK8sObjects parse exampleWebAfter).1 = exampleWebAfterTwice := by rw [hr2]
  have hok2 := congrArg Prod.snd hr2
  simp only at hok2
  have e1 := deploymentsOf_output parse exampleWeb _ hok1
  have e2 := deploymentsOf_output parse exampleWebAfter _ hok2
  rw [hfst1] at e1
  rw [hfst2] at e2
  rw [hfst1]
  refine ⟨rfl, rfl, rfl, _, _, hok1, hok2, ?_, rfl, rfl, ?_, ?_⟩
  · intro heq
    have hd := congrArg deploymentsOf heq
    rw [e1, e2] at hd
    revert hd
    decide
  · rw [e1]
    rfl
  · rw [e2]
    rfl

theorem CreateK8sObjects_not_idempotent_witness :
    ∃ objs1 objs2 : List (Object Nat),
      (CreateK8sObjects sampleParse exampleWeb).2 = .ok objs1 ∧
      (CreateK8sObjects sampleParse (CreateK8sObjects sampleParse exampleWeb).1).2 = .ok objs2 ∧
      objs1 ≠ objs2 := by
  obtain ⟨_, _, _, objs1, objs2, h1, h2, h3, _⟩ :=
    CreateK8sObjects_not_idempotent sampleParse 104857600 rfl
  exact ⟨objs1, objs2, h1, h2, h3⟩

/-! ## Defaulting -/

/-- C19 does not hold: the model has exactly one container, without a name,
but the size of a declared intent does not parse, so the run returns before the
container is named: its name is still empty, not the name of the application. -/
theorem unnamed_container_stays_unnamed :
    exampleBadSize.PodSpec.Containers.length = 1 ∧
      exampleBadSize.PodSpec.Containers.map (fun c => c.Name) = [""] ∧
      (∃ err, (CreateK8sObjects sampleParse exampleBadSize).2 = .error err) ∧
      (CreateK8sObjects sampleParse exampleBadSize).1.PodSpec.Containers.map
        (fun c => c.Name) = [""] ∧
      exampleBadSize.Name = "web" :=
  ⟨rfl, rfl, ⟨_, rfl⟩, rfl, rfl⟩

/-- C19, amended: on every path `CreateK8sObjects` sets unset labels to
`app: name` and leaves set labels, the services and the configuration data as
they are. When it succeeds, a model with exactly one container, whose name is
empty, has that container named after the application, and in every other model
the container names are unchanged; when it fails, the containers are the ones
the model came with. -/
theorem CreateK8sObjects_defaulting (parse : String → Except String Q) (app : spec.App) :
    (app.Labels = none → (CreateK8sObjects parse app).1.Labels = some [("app", app.Name)]) ∧
      (app.Labels ≠ none → (CreateK8sObjects parse app).1.Labels = app.Labels) ∧
      (CreateK8sObjects parse app).1.Services = app.Services ∧
      (CreateK8sObjects parse app).1.ConfigData = app.ConfigData ∧
      (∀ objs, (CreateK8sObjects parse app).2 = .ok objs →
        (∀ c, app.PodSpec.Containers = [c] → c.Name = "" →
          (CreateK8sObjects parse app).1.PodSpec.Containers.map (fun c => c.Name) =
            [app.Name]) ∧
        ((¬ ∃ c, app.PodSpec.Containers = [c] ∧ c.Name = "") →
          (CreateK8sObjects parse app).1.PodSpec.Containers.map (fun c => c.Name) =
            app.PodSpec.Containers.map (fun c => c.Name))) ∧
      ∀ err, (CreateK8sObjects parse app).2 = .error err →
        (CreateK8sObjects parse app).1.PodSpec.Containers = app.PodSpec.Containers := by
  obtain ⟨_, f2, _, f4, f5⟩ := CreateK8sObjects_frame parse app
  refine ⟨?_, ?_, f4, f5, ?_, ?_⟩
  · intro hl
    rw [f2]
    simp [withLabels, hl, getLabels]
  · intro hl
    rw [f2]
    simp [withLabels, hl]
  · intro objs h
    obtain ⟨cs, _, h2, _⟩ := CreateK8sObjects_ok_inv parse app objs h
    obtain ⟨n1, n2⟩ := final_container_names app
    rw [h2]
    exact ⟨fun c hc hn => n1 ⟨c, hc, hn⟩, n2⟩
  · intro err h
    exact CreateK8sObjects_error_containers parse app err h

theorem CreateK8sObjects_defaulting_witness :
    exampleWeb.Labels = none ∧
      (∃ objs : List (Object Nat), (CreateK8sObjects sampleParse exampleWeb).2 = .ok objs) ∧
      (CreateK8sObjects sampleParse exampleWeb).1.Labels = some [("app", "web")] ∧
      (CreateK8sObjects sampleParse exampleWeb).1.PodSpec.Containers.map (fun c => c.Name) =
        ["web"] :=
  ⟨rfl, ⟨_, rfl⟩, (CreateK8sObjects_defaulting sampleParse exampleWeb).1 rfl,
    ((CreateK8sObjects_defaulting sampleParse exampleWeb).2.2.2.2.1 _ rfl).1 _ rfl rfl⟩

end kubernetes

end Kedge
